import Mathlib

/-!
Verification of the RBAC / token-validation / row-scoping subsystem.

Shallow embedding of the Python sources:
  app/msal_util/rbac_engine.py   (RBAC config, inheritance, decisions)
  app/msal_util/jwks_cache.py    (JWKS TTL cache with rotation refresh)
  app/msal_util/validator.py     (token validation and claims extraction)
  app/msal_util/graph_client.py  (Graph role fallback)
  app/security/config.py         (route-policy matching)
  app/security/dependencies.py   (per-request enforcement)
  app/db/filters.py              (row-level scoping predicates)

Python dicts are embedded as association lists (`List (String × _)`, first
binding wins on lookup), sets as lists with membership-level statements,
and machine floats used only as monotonic timestamps as `Int`.
-/

namespace RoutesSec

/-! ## Path-template matching

Both `rbac_engine._path_template_to_regex` and
`security/config._path_template_to_regex` compile a template by replacing
every occurrence of the regex `\x7b[^/]+\x7d` with `[^/]+` and anchoring with
`^...$`.  We embed the compiled pattern as a token list (literal characters
and `[^/]+` parameters) and a backtracking matcher. -/

def lbrace : Char := Char.ofNat 123

def rbrace : Char := Char.ofNat 125

def slashChar : Char := Char.ofNat 47

/-- Python `str.upper`, restricted to the ASCII method/name strings the
configs use (embedded character-wise so that it evaluates in the kernel). -/
def upperStr (s : String) : String :=
  String.mk (s.data.map Char.toUpper)

inductive RegexTok
  | lit (c : Char)
  | param
deriving DecidableEq, Repr

/-- Index of the closing brace chosen by the greedy regex `\x7b[^/]+\x7d`:
the largest `j ≥ 1` inside the non-slash run with `run[j] = rbrace`. -/
def closeBraceIdx (run : List Char) : Option Nat :=
  (List.range run.length).foldl
    (fun acc j => if 1 ≤ j ∧ run.getD j slashChar = rbrace then some j else acc) none

/-- Scan the template, replacing each `\x7b[^/]+\x7d` occurrence (leftmost,
greedy closing brace) with a `param` token; all other characters are
literals.  `fuel` is the character count, which suffices since every step
consumes at least one character. -/
def compileAux : Nat → List Char → List RegexTok
  | 0, _ => []
  | _ + 1, [] => []
  | fuel + 1, c :: cs =>
    if c = lbrace then
      match closeBraceIdx (cs.takeWhile (fun ch => ch ≠ slashChar)) with
      | some j => RegexTok.param :: compileAux fuel (cs.drop (j + 1))
      | none => RegexTok.lit c :: compileAux fuel cs
    else
      RegexTok.lit c :: compileAux fuel cs

def compileTemplate (tpl : String) : List RegexTok :=
  compileAux tpl.toList.length tpl.toList

/-- Anchored match of the compiled pattern against the whole path.  A
`param` token consumes one or more non-slash characters (with
backtracking, as Python `re` does).  `fuel` bounded by the path length
plus one suffices since each recursive call consumes one path character. -/
def reMatchAux : Nat → List RegexTok → List Char → Bool
  | 0, _, _ => false
  | _ + 1, [], path => path.isEmpty
  | fuel + 1, RegexTok.lit c :: ts, path =>
    match path with
    | [] => false
    | p :: ps => c == p && reMatchAux fuel ts ps
  | fuel + 1, RegexTok.param :: ts, path =>
    match path with
    | [] => false
    | p :: ps => !(p == slashChar) && (reMatchAux fuel ts ps || reMatchAux fuel (RegexTok.param :: ts) ps)

def templateMatches (tpl path : String) : Bool :=
  reMatchAux (path.toList.length + 1) (compileTemplate tpl) path.toList

/-! ## RBAC data model (rbac_engine.py) -/

structure RbacRule where
  path_template : String
  methods : List String
deriving DecidableEq, Repr

structure PermissionDef where
  name : String
  rules : List RbacRule
  public : Bool
deriving DecidableEq, Repr

structure RoleDef where
  name : String
  permissions : List String
  extendsRole : Option String
  display_name : Option String
  description : Option String
deriving DecidableEq, Repr

structure RbacConfig where
  roles : List (String × RoleDef)
  permissions : List (String × PermissionDef)
  public_rules : List RbacRule
deriving DecidableEq, Repr

/-- `_normalize_methods`: uppercase every method name. -/
def normalizeMethods (methods : List String) : List String :=
  methods.map upperStr

/-- `RbacEngine._matches_any`: some rule allows the (uppercased) method and
its compiled template matches the path. -/
def matchesAny (rules : List RbacRule) (method path : String) : Bool :=
  rules.any (fun r => r.methods.contains (upperStr method) && templateMatches r.path_template path)

/-- `RbacEngine.is_public`. -/
def isPublic (cfg : RbacConfig) (method path : String) : Bool :=
  matchesAny cfg.public_rules method path

/-- `RbacEngine._required_permissions_for`: names of permissions having a
rule that matches `(method, path)`. -/
def requiredPermissionsFor (cfg : RbacConfig) (method path : String) : List String :=
  cfg.permissions.filterMap (fun np =>
    if np.2.rules.any (fun r => r.methods.contains (upperStr method) && templateMatches r.path_template path)
    then some np.1 else none)

/-- Effective permission map: role name to permission names. -/
abbrev EffMap := List (String × List String)

/-- Union of effective permissions over the supplied roles
(`is_allowed` steps 3: unknown roles contribute nothing, and Python skips
falsy — that is, empty — permission sets). -/
def userPerms (eff : EffMap) (roles : List String) : List String :=
  roles.foldl (fun acc r =>
    match eff.lookup r with
    | some ps => if ps.isEmpty then acc else acc ++ ps
    | none => acc) []

/-- `RbacEngine.is_allowed`. -/
def isAllowed (cfg : RbacConfig) (eff : EffMap) (roles : List String) (method path : String) : Bool :=
  if isPublic cfg method path then true
  else
    let required := requiredPermissionsFor cfg method path
    if required.isEmpty then false
    else
      let ups := userPerms eff roles
      if ups.isEmpty then false
      else ups.any (fun p => required.contains p)

/-! ### Membership characterization of `userPerms` -/

theorem userPerms_go_mem (eff : EffMap) (roles : List String) (acc : List String) (q : String) :
    q ∈ roles.foldl (fun acc r =>
      match eff.lookup r with
      | some ps => if ps.isEmpty then acc else acc ++ ps
      | none => acc) acc ↔
    q ∈ acc ∨ ∃ r ∈ roles, ∃ ps, eff.lookup r = some ps ∧ q ∈ ps := by
  induction roles generalizing acc with
  | nil => simp
  | cons r rs ih =>
    simp only [List.foldl_cons]
    cases h : eff.lookup r with
    | none =>
      rw [ih]
      constructor
      · rintro (hq | ⟨r', hr', ps, hps, hqps⟩)
        · exact Or.inl hq
        · exact Or.inr ⟨r', List.mem_cons_of_mem _ hr', ps, hps, hqps⟩
      · rintro (hq | ⟨r', hr', ps, hps, hqps⟩)
        · exact Or.inl hq
        · rcases List.mem_cons.mp hr' with rfl | hr'
          · rw [h] at hps; exact absurd hps (by simp)
          · exact Or.inr ⟨r', hr', ps, hps, hqps⟩
    | some ps =>
      by_cases hps : ps.isEmpty
      · simp only [hps, if_true]
        rw [ih]
        have hpsnil : ps = [] := List.isEmpty_iff.mp hps
        constructor
        · rintro (hq | ⟨r', hr', ps', hps', hqps'⟩)
          · exact Or.inl hq
          · exact Or.inr ⟨r', List.mem_cons_of_mem _ hr', ps', hps', hqps'⟩
        · rintro (hq | ⟨r', hr', ps', hps', hqps'⟩)
          · exact Or.inl hq
          · rcases List.mem_cons.mp hr' with rfl | hr'
            · rw [h] at hps'
              obtain rfl : ps = ps' := by injection hps'
              subst hpsnil; simp at hqps'
            · exact Or.inr ⟨r', hr', ps', hps', hqps'⟩
      · simp only [hps, if_false]
        rw [ih]
        constructor
        · rintro (hq | ⟨r', hr', ps', hps', hqps'⟩)
          · rcases List.mem_append.mp hq with hq | hq
            · exact Or.inl hq
            · exact Or.inr ⟨r, List.mem_cons_self r rs, ps, h, hq⟩
          · exact Or.inr ⟨r', List.mem_cons_of_mem _ hr', ps', hps', hqps'⟩
        · rintro (hq | ⟨r', hr', ps', hps', hqps'⟩)
          · exact Or.inl (List.mem_append.mpr (Or.inl hq))
          · rcases List.mem_cons.mp hr' with rfl | hr'
            · rw [h] at hps'
              obtain rfl : ps = ps' := by injection hps'
              exact Or.inl (List.mem_append.mpr (Or.inr hqps'))
            · exact Or.inr ⟨r', hr', ps', hps', hqps'⟩

theorem userPerms_mem (eff : EffMap) (roles : List String) (q : String) :
    q ∈ userPerms eff roles ↔ ∃ r ∈ roles, ∃ ps, eff.lookup r = some ps ∧ q ∈ ps := by
  unfold userPerms
  rw [userPerms_go_mem]
  simp

/-- C1: decision structure of `RbacEngine.is_allowed`.  Public requests are
allowed for every role set; with no matching permission rule the request is
denied; otherwise the request is allowed iff the union of the effective
permissions of the supplied roles (role names absent from the
effective-permission map contributing nothing) meets the matching
permission set. -/
theorem is_allowed_decision (cfg : RbacConfig) (eff : EffMap) (roles : List String)
    (method path : String) :
    (isPublic cfg method path = true → isAllowed cfg eff roles method path = true)
    ∧ (isPublic cfg method path = false → requiredPermissionsFor cfg method path = [] →
        isAllowed cfg eff roles method path = false)
    ∧ (isPublic cfg method path = false → requiredPermissionsFor cfg method path ≠ [] →
        (isAllowed cfg eff roles method path = true ↔
          ∃ q, (∃ r ∈ roles, ∃ ps, eff.lookup r = some ps ∧ q ∈ ps) ∧
            q ∈ requiredPermissionsFor cfg method path)) := by
  refine ⟨fun hpub => ?_, fun hpub hreq => ?_, fun hpub hreq => ?_⟩
  · simp [isAllowed, hpub]
  · simp [isAllowed, hpub, hreq]
  · have hreqempty : (requiredPermissionsFor cfg method path).isEmpty = false := by
      simpa [List.isEmpty_iff] using hreq
    by_cases hups : (userPerms eff roles).isEmpty
    · have hupsnil : userPerms eff roles = [] := List.isEmpty_iff.mp hups
      simp only [isAllowed, hpub, Bool.false_eq_true, if_false, hreqempty, hups, if_true]
      constructor
      · intro h; exact absurd h (by simp)
      · rintro ⟨q, hq, _⟩
        rw [← userPerms_mem eff roles q] at hq
        rw [hupsnil] at hq
        simp at hq
    · simp only [isAllowed, hpub, Bool.false_eq_true, if_false, hreqempty, hups, if_false]
      rw [List.any_eq_true]
      constructor
      · rintro ⟨q, hq, hmem⟩
        exact ⟨q, (userPerms_mem eff roles q).mp hq, by simpa using hmem⟩
      · rintro ⟨q, hq, hmem⟩
        exact ⟨q, (userPerms_mem eff roles q).mpr hq, by simpa using hmem⟩

/-- Sample RBAC configuration: permission `docs.read` guards `GET /docs`,
role `reader` holds it. -/
def c1Cfg : RbacConfig :=
  { roles := [("reader",
      { name := "reader", permissions := ["docs.read"], extendsRole := none
        display_name := none, description := none })]
    permissions := [("docs.read",
      { name := "docs.read", rules := [{ path_template := "/docs", methods := ["GET"] }]
        public := false })]
    public_rules := [] }

def c1Eff : EffMap := [("reader", ["docs.read"])]

theorem is_allowed_decision_witness :
    isAllowed c1Cfg c1Eff ["reader"] "GET" "/docs" = true := by
  have h := is_allowed_decision c1Cfg c1Eff ["reader"] "GET" "/docs"
  exact (h.2.2 (by decide) (by decide)).mpr
    ⟨"docs.read", ⟨"reader", by decide, ["docs.read"], by decide, by decide⟩, by decide⟩

/-! ## Role inheritance resolution (`_compute_effective_permissions`)

Python runs a depth-first traversal with a memo dict (`effective`) and an
in-progress set (`visiting`), raising `RbacConfigError` on a revisit and
`KeyError` on an unknown role name.  The embedding threads the two
structures explicitly and uses `cfg.roles.length + 1` recursion fuel,
which is proved sufficient (`dfs_no_outOfFuel`). -/

inductive RbacError
  | cycleAt (role : String)
  | missingRole (role : String)
  | outOfFuel
deriving DecidableEq, Repr

structure EffState where
  effective : EffMap
  visiting : List String
deriving DecidableEq, Repr

def dfs (cfg : RbacConfig) : Nat → String → EffState → Except RbacError (List String × EffState)
  | 0, _, _ => .error .outOfFuel
  | fuel + 1, roleName, st =>
    match st.effective.lookup roleName with
    | some perms => .ok (perms, st)
    | none =>
      if roleName ∈ st.visiting then .error (.cycleAt roleName)
      else
        match cfg.roles.lookup roleName with
        | none => .error (.missingRole roleName)
        | some role =>
          match role.extendsRole with
          | none =>
            .ok (role.permissions,
              { effective := (roleName, role.permissions) :: st.effective
                visiting := (roleName :: st.visiting).erase roleName })
          | some parent =>
            match dfs cfg fuel parent { st with visiting := roleName :: st.visiting } with
            | .error e => .error e
            | .ok (parentPerms, st2) =>
              .ok (role.permissions ++ parentPerms,
                { effective := (roleName, role.permissions ++ parentPerms) :: st2.effective
                  visiting := st2.visiting.erase roleName })

/-- The top-level loop `for name in config.roles.keys(): dfs(name)`. -/
def runAll (cfg : RbacConfig) (fuel : Nat) : List String → EffState → Except RbacError EffState
  | [], st => .ok st
  | n :: ns, st =>
    match dfs cfg fuel n st with
    | .error e => .error e
    | .ok (_, st') => runAll cfg fuel ns st'

def computeEffectivePermissions (cfg : RbacConfig) : Except RbacError EffMap :=
  match runAll cfg (cfg.roles.length + 1) (cfg.roles.map Prod.fst) { effective := [], visiting := [] } with
  | .ok st => .ok st.effective
  | .error e => .error e

/-! ### Association-list lookup helpers -/

theorem lookup_cons_self {β : Type} (k : String) (v : β) (l : List (String × β)) :
    ((k, v) :: l).lookup k = some v := by
  simp [List.lookup]

theorem lookup_cons_ne {β : Type} {x k : String} (v : β) (l : List (String × β)) (h : x ≠ k) :
    ((k, v) :: l).lookup x = l.lookup x := by
  simp [List.lookup, beq_false_of_ne h]

theorem lookup_some_mem {β : Type} {l : List (String × β)} {k : String} {v : β}
    (h : l.lookup k = some v) : (k, v) ∈ l := by
  induction l with
  | nil => simp [List.lookup] at h
  | cons kv rest ih =>
    obtain ⟨k', v'⟩ := kv
    by_cases hk : k = k'
    · subst hk
      rw [lookup_cons_self] at h
      obtain rfl : v' = v := by injection h
      exact List.mem_cons_self _ _
    · rw [lookup_cons_ne _ _ hk] at h
      exact List.mem_cons_of_mem _ (ih h)

theorem lookup_isSome_of_mem_keys {β : Type} {l : List (String × β)} {k : String}
    (h : k ∈ l.map Prod.fst) : (l.lookup k).isSome := by
  induction l with
  | nil => simp at h
  | cons kv rest ih =>
    obtain ⟨k', v'⟩ := kv
    by_cases hk : k = k'
    · subst hk
      simp [lookup_cons_self]
    · rw [lookup_cons_ne _ _ hk]
      apply ih
      simp only [List.map_cons, List.mem_cons] at h
      rcases h with h | h
      · exact absurd h hk
      · exact h

theorem mem_keys_of_lookup_isSome {β : Type} {l : List (String × β)} {k : String}
    (h : (l.lookup k).isSome) : k ∈ l.map Prod.fst := by
  obtain ⟨v, hv⟩ := Option.isSome_iff_exists.mp h
  exact List.mem_map.mpr ⟨(k, v), lookup_some_mem hv, rfl⟩

/-! ### Ancestor chains in the `extends` graph -/

def roleParent (cfg : RbacConfig) (r : String) : Option String :=
  match cfg.roles.lookup r with
  | some ro => ro.extendsRole
  | none => none

def iterParent (cfg : RbacConfig) : Nat → String → Option String
  | 0, r => some r
  | k + 1, r =>
    match roleParent cfg r with
    | some p => iterParent cfg k p
    | none => none

/-- `a` is `r` itself or one of its (transitive) `extends` ancestors. -/
def isAncestor (cfg : RbacConfig) (a r : String) : Prop :=
  ∃ k, iterParent cfg k r = some a

/-- `a` is reachable from `r` in at least one `extends` step. -/
def reachesPlus (cfg : RbacConfig) (r a : String) : Prop :=
  ∃ k, 0 < k ∧ iterParent cfg k r = some a

def onCycle (cfg : RbacConfig) (r : String) : Prop := reachesPlus cfg r r

/-- The `extends` chain from `r` reaches a root. -/
def chainTerm (cfg : RbacConfig) (r : String) : Prop :=
  ∃ k, iterParent cfg k r = none

theorem iterParent_add (cfg : RbacConfig) (k m : Nat) (r : String) :
    iterParent cfg (k + m) r =
      match iterParent cfg k r with
      | some x => iterParent cfg m x
      | none => none := by
  induction k generalizing r with
  | zero => simp [iterParent]
  | succ k ih =>
    have hes : k + 1 + m = (k + m) + 1 := by omega
    rw [hes]
    cases hp : roleParent cfg r with
    | none => simp [iterParent, hp]
    | some p => simp [iterParent, hp, ih]

theorem onCycle_not_chainTerm (cfg : RbacConfig) (r : String) (hc : onCycle cfg r) :
    ¬ chainTerm cfg r := by
  rintro ⟨m, hm⟩
  obtain ⟨k, hk0, hk⟩ := hc
  have hiter : ∀ n, iterParent cfg (n * k) r = some r := by
    intro n
    induction n with
    | zero => simp [iterParent]
    | succ n ih =>
      have hes : (n + 1) * k = n * k + k := by ring
      rw [hes, iterParent_add, ih]
      exact hk
  have hmk : m ≤ m * k := by
    have h1 : m * 1 ≤ m * k := Nat.mul_le_mul_left m hk0
    simpa using h1
  obtain ⟨d, hd⟩ := Nat.exists_eq_add_of_le hmk
  have h1 : iterParent cfg (m * k) r = some r := hiter m
  have h2 : iterParent cfg (m + d) r = none := by
    rw [iterParent_add, hm]
  rw [hd] at h1
  rw [h1] at h2
  exact Option.noConfusion h2

theorem chainTerm_root (cfg : RbacConfig) (r : String) (h : roleParent cfg r = none) :
    chainTerm cfg r :=
  ⟨1, by simp [iterParent, h]⟩

theorem chainTerm_step (cfg : RbacConfig) (r p : String) (h : roleParent cfg r = some p)
    (hp : chainTerm cfg p) : chainTerm cfg r := by
  obtain ⟨k, hk⟩ := hp
  exact ⟨k + 1, by simp [iterParent, h, hk]⟩

theorem isAncestor_root (cfg : RbacConfig) (a r : String) (h : roleParent cfg r = none) :
    isAncestor cfg a r ↔ a = r := by
  constructor
  · rintro ⟨k, hk⟩
    cases k with
    | zero => simpa [iterParent] using hk.symm
    | succ k => rw [iterParent, h] at hk; exact Option.noConfusion hk
  · rintro rfl; exact ⟨0, rfl⟩

theorem isAncestor_step (cfg : RbacConfig) (a r p : String) (h : roleParent cfg r = some p) :
    isAncestor cfg a r ↔ a = r ∨ isAncestor cfg a p := by
  constructor
  · rintro ⟨k, hk⟩
    cases k with
    | zero => exact Or.inl (by simpa [iterParent] using hk.symm)
    | succ k =>
      rw [iterParent, h] at hk
      exact Or.inr ⟨k, hk⟩
  · rintro (rfl | ⟨k, hk⟩)
    · exact ⟨0, rfl⟩
    · exact ⟨k + 1, by rw [iterParent, h]; exact hk⟩

theorem reachesPlus_one (cfg : RbacConfig) (r p : String) (h : roleParent cfg r = some p) :
    reachesPlus cfg r p :=
  ⟨1, Nat.one_pos, by simp [iterParent, h]⟩

theorem reachesPlus_step (cfg : RbacConfig) (v r p : String) (h : reachesPlus cfg v r)
    (hp : roleParent cfg r = some p) : reachesPlus cfg v p := by
  obtain ⟨k, hk0, hk⟩ := h
  refine ⟨k + 1, by omega, ?_⟩
  rw [iterParent_add, hk]
  simp [iterParent, hp]

theorem onCycle_lookup_isSome (cfg : RbacConfig) (r : String) (h : onCycle cfg r) :
    (cfg.roles.lookup r).isSome := by
  obtain ⟨k, hk0, hk⟩ := h
  cases k with
  | zero => omega
  | succ k =>
    rw [iterParent] at hk
    cases hp : roleParent cfg r with
    | none => rw [hp] at hk; exact Option.noConfusion hk
    | some p =>
      unfold roleParent at hp
      cases hl : cfg.roles.lookup r with
      | none => rw [hl] at hp; exact Option.noConfusion hp
      | some ro => simp [hl]

/-! ### Invariants of the depth-first traversal -/

/-- Every role definition's `extends` target exists (`load_rbac_config`
validates exactly this). -/
def validExtendsB (cfg : RbacConfig) : Bool :=
  cfg.roles.all (fun nr =>
    match nr.2.extendsRole with
    | none => true
    | some p => (cfg.roles.lookup p).isSome)

def roleKeys (cfg : RbacConfig) : List String := cfg.roles.map Prod.fst

/-- Memo-table correctness: each cached entry terminates in the `extends`
graph and holds exactly the direct permissions of the role and of all of
its ancestors. -/
def memoGood (cfg : RbacConfig) (m : EffMap) : Prop :=
  ∀ r ps, m.lookup r = some ps →
    chainTerm cfg r ∧
    ∀ q, (q ∈ ps ↔ ∃ a ro, isAncestor cfg a r ∧ cfg.roles.lookup a = some ro ∧ q ∈ ro.permissions)

theorem memoGood_cons (cfg : RbacConfig) {m : EffMap} (hm : memoGood cfg m)
    {r : String} {ps : List String}
    (hterm : chainTerm cfg r)
    (hiff : ∀ q, q ∈ ps ↔ ∃ a ro, isAncestor cfg a r ∧ cfg.roles.lookup a = some ro ∧ q ∈ ro.permissions) :
    memoGood cfg ((r, ps) :: m) := by
  intro x v hx
  by_cases hxr : x = r
  · subst hxr
    rw [lookup_cons_self] at hx
    obtain rfl : ps = v := by injection hx
    exact ⟨hterm, hiff⟩
  · rw [lookup_cons_ne _ _ hxr] at hx
    exact hm x v hx

theorem dfs_ok_inv (cfg : RbacConfig) :
    ∀ (fuel : Nat) (r : String) (st : EffState) (ps : List String) (st' : EffState),
    memoGood cfg st.effective →
    dfs cfg fuel r st = .ok (ps, st') →
    memoGood cfg st'.effective ∧ st'.effective.lookup r = some ps ∧
      (∀ x v, st.effective.lookup x = some v → st'.effective.lookup x = some v) ∧
      st'.visiting = st.visiting := by
  intro fuel
  induction fuel with
  | zero => intro r st ps st' _ h; simp [dfs] at h
  | succ fuel ih =>
    intro r st ps st' hmg h
    rw [dfs] at h
    cases hml : st.effective.lookup r with
    | some perms =>
      simp only [hml, Except.ok.injEq, Prod.mk.injEq] at h
      obtain ⟨rfl, rfl⟩ := h
      exact ⟨hmg, hml, fun _ _ hx => hx, rfl⟩
    | none =>
      simp only [hml] at h
      by_cases hvis : r ∈ st.visiting
      · simp [hvis] at h
      · simp only [if_neg hvis] at h
        cases hrl : cfg.roles.lookup r with
        | none => simp [hrl] at h
        | some role =>
          simp only [hrl] at h
          cases hex : role.extendsRole with
          | none =>
            simp only [hex, Except.ok.injEq, Prod.mk.injEq] at h
            obtain ⟨rfl, rfl⟩ := h
            have hpar : roleParent cfg r = none := by simp [roleParent, hrl, hex]
            have hiff : ∀ q, q ∈ role.permissions ↔
                ∃ a ro, isAncestor cfg a r ∧ cfg.roles.lookup a = some ro ∧ q ∈ ro.permissions := by
              intro q
              constructor
              · intro hq; exact ⟨r, role, ⟨0, rfl⟩, hrl, hq⟩
              · rintro ⟨a, ro, ha, hro, hq⟩
                obtain rfl : a = r := (isAncestor_root cfg a r hpar).mp ha
                rw [hrl] at hro
                obtain rfl : role = ro := by injection hro
                exact hq
            refine ⟨memoGood_cons cfg hmg (chainTerm_root cfg r hpar) hiff,
              lookup_cons_self _ _ _, ?_, ?_⟩
            · intro x v hx
              by_cases hxr : x = r
              · subst hxr; rw [hml] at hx; exact Option.noConfusion hx
              · rw [lookup_cons_ne _ _ hxr]; exact hx
            · simp [List.erase_cons_head]
          | some parent =>
            simp only [hex] at h
            cases hrec : dfs cfg fuel parent { st with visiting := r :: st.visiting } with
            | error e => simp [hrec] at h
            | ok pr =>
              obtain ⟨parentPerms, st2⟩ := pr
              simp only [hrec, Except.ok.injEq, Prod.mk.injEq] at h
              obtain ⟨rfl, rfl⟩ := h
              obtain ⟨hmg2, hlk2, hpres2, hvis2⟩ :=
                ih parent { st with visiting := r :: st.visiting } parentPerms st2 hmg hrec
              have hpar : roleParent cfg r = some parent := by simp [roleParent, hrl, hex]
              have hparentGood := hmg2 parent parentPerms hlk2
              have hiff : ∀ q, q ∈ role.permissions ++ parentPerms ↔
                  ∃ a ro, isAncestor cfg a r ∧ cfg.roles.lookup a = some ro ∧ q ∈ ro.permissions := by
                intro q
                rw [List.mem_append]
                constructor
                · rintro (hq | hq)
                  · exact ⟨r, role, ⟨0, rfl⟩, hrl, hq⟩
                  · obtain ⟨a, ro, ha, hro, hq'⟩ := (hparentGood.2 q).mp hq
                    exact ⟨a, ro, (isAncestor_step cfg a r parent hpar).mpr (Or.inr ha), hro, hq'⟩
                · rintro ⟨a, ro, ha, hro, hq⟩
                  rcases (isAncestor_step cfg a r parent hpar).mp ha with rfl | ha'
                  · rw [hrl] at hro
                    obtain rfl : role = ro := by injection hro
                    exact Or.inl hq
                  · exact Or.inr ((hparentGood.2 q).mpr ⟨a, ro, ha', hro, hq⟩)
              refine ⟨memoGood_cons cfg hmg2 (chainTerm_step cfg r parent hpar hparentGood.1) hiff,
                lookup_cons_self _ _ _, ?_, ?_⟩
              · intro x v hx
                by_cases hxr : x = r
                · subst hxr; rw [hml] at hx; exact Option.noConfusion hx
                · rw [lookup_cons_ne _ _ hxr]; exact hpres2 x v hx
              · rw [hvis2]
                simp [List.erase_cons_head]

theorem dfs_err_cycle (cfg : RbacConfig) :
    ∀ (fuel : Nat) (r : String) (st : EffState) (r' : String),
    (∀ v ∈ st.visiting, reachesPlus cfg v r) →
    dfs cfg fuel r st = .error (.cycleAt r') →
    onCycle cfg r' := by
  intro fuel
  induction fuel with
  | zero => intro r st r' _ h; simp [dfs] at h
  | succ fuel ih =>
    intro r st r' hvisinv h
    rw [dfs] at h
    cases hml : st.effective.lookup r with
    | some perms => simp [hml] at h
    | none =>
      simp only [hml] at h
      by_cases hvis : r ∈ st.visiting
      · simp only [if_pos hvis, Except.error.injEq, RbacError.cycleAt.injEq] at h
        subst h
        exact hvisinv r hvis
      · simp only [if_neg hvis] at h
        cases hrl : cfg.roles.lookup r with
        | none => simp [hrl] at h
        | some role =>
          simp only [hrl] at h
          cases hex : role.extendsRole with
          | none => simp [hex] at h
          | some parent =>
            simp only [hex] at h
            cases hrec : dfs cfg fuel parent { st with visiting := r :: st.visiting } with
            | error e =>
              simp only [hrec] at h
              obtain rfl : e = RbacError.cycleAt r' := by
                simpa using h
              have hpar : roleParent cfg r = some parent := by simp [roleParent, hrl, hex]
              refine ih parent _ r' ?_ hrec
              intro v hv
              rcases List.mem_cons.mp hv with rfl | hv
              · exact reachesPlus_one cfg v parent hpar
              · exact reachesPlus_step cfg v r parent (hvisinv v hv) hpar
            | ok pr => obtain ⟨pp, st2⟩ := pr; simp [hrec] at h

theorem dfs_no_missing (cfg : RbacConfig) (hv : validExtendsB cfg = true) :
    ∀ (fuel : Nat) (r : String) (st : EffState) (x : String),
    (cfg.roles.lookup r).isSome →
    dfs cfg fuel r st = .error (.missingRole x) → False := by
  intro fuel
  induction fuel with
  | zero => intro r st x _ h; simp [dfs] at h
  | succ fuel ih =>
    intro r st x hr h
    rw [dfs] at h
    cases hml : st.effective.lookup r with
    | some perms => simp [hml] at h
    | none =>
      simp only [hml] at h
      by_cases hvis : r ∈ st.visiting
      · simp [if_pos hvis] at h
      · simp only [if_neg hvis] at h
        cases hrl : cfg.roles.lookup r with
        | none => rw [hrl] at hr; simp at hr
        | some role =>
          simp only [hrl] at h
          cases hex : role.extendsRole with
          | none => simp [hex] at h
          | some parent =>
            simp only [hex] at h
            cases hrec : dfs cfg fuel parent { st with visiting := r :: st.visiting } with
            | error e =>
              simp only [hrec] at h
              obtain rfl : e = RbacError.missingRole x := by simpa using h
              have hmem : (r, role) ∈ cfg.roles := lookup_some_mem hrl
              have hall := (List.all_eq_true.mp hv) (r, role) hmem
              simp only [hex] at hall
              exact ih parent _ x (by simpa using hall) hrec
            | ok pr => obtain ⟨pp, st2⟩ := pr; simp [hrec] at h

theorem dfs_no_outOfFuel (cfg : RbacConfig) (hv : validExtendsB cfg = true) :
    ∀ (fuel : Nat) (r : String) (st : EffState),
    (cfg.roles.lookup r).isSome →
    (∀ v ∈ st.visiting, v ∈ roleKeys cfg) →
    st.visiting.Nodup →
    (roleKeys cfg).length + 1 ≤ fuel + st.visiting.length →
    dfs cfg fuel r st = .error .outOfFuel → False := by
  intro fuel
  induction fuel with
  | zero =>
    intro r st hr hsub hnd hfuel _
    have hle : st.visiting.length ≤ (roleKeys cfg).length :=
      (hnd.subperm (fun v hv => hsub v hv)).length_le
    omega
  | succ fuel ih =>
    intro r st hr hsub hnd hfuel h
    rw [dfs] at h
    cases hml : st.effective.lookup r with
    | some perms => simp [hml] at h
    | none =>
      simp only [hml] at h
      by_cases hvis : r ∈ st.visiting
      · simp [if_pos hvis] at h
      · simp only [if_neg hvis] at h
        cases hrl : cfg.roles.lookup r with
        | none => rw [hrl] at hr; simp at hr
        | some role =>
          simp only [hrl] at h
          cases hex : role.extendsRole with
          | none => simp [hex] at h
          | some parent =>
            simp only [hex] at h
            cases hrec : dfs cfg fuel parent { st with visiting := r :: st.visiting } with
            | error e =>
              simp only [hrec] at h
              obtain rfl : e = RbacError.outOfFuel := by simpa using h
              have hmem : (r, role) ∈ cfg.roles := lookup_some_mem hrl
              have hall := (List.all_eq_true.mp hv) (r, role) hmem
              simp only [hex] at hall
              have hrk : r ∈ roleKeys cfg :=
                mem_keys_of_lookup_isSome (by simp [hrl])
              have hrnv : r ∉ st.visiting := hvis
              refine ih parent { st with visiting := r :: st.visiting } (by simpa using hall)
                ?_ ?_ ?_ hrec
              · intro v hvv
                rcases List.mem_cons.mp hvv with rfl | hvv
                · exact hrk
                · exact hsub v hvv
              · exact List.nodup_cons.mpr ⟨hrnv, hnd⟩
              · simpa using by omega
            | ok pr => obtain ⟨pp, st2⟩ := pr; simp [hrec] at h

theorem runAll_ok_inv (cfg : RbacConfig) (fuel : Nat) :
    ∀ (ns : List String) (st st' : EffState),
    memoGood cfg st.effective →
    runAll cfg fuel ns st = .ok st' →
    memoGood cfg st'.effective ∧
      (∀ x v, st.effective.lookup x = some v → st'.effective.lookup x = some v) ∧
      (∀ n ∈ ns, (st'.effective.lookup n).isSome) ∧
      st'.visiting = st.visiting := by
  intro ns
  induction ns with
  | nil =>
    intro st st' hmg h
    simp only [runAll, Except.ok.injEq] at h
    subst h
    exact ⟨hmg, fun _ _ hx => hx, by simp, rfl⟩
  | cons n ns ih =>
    intro st st' hmg h
    rw [runAll] at h
    cases hd : dfs cfg fuel n st with
    | error e => rw [hd] at h; simp at h
    | ok pr =>
      obtain ⟨ps, st1⟩ := pr
      rw [hd] at h
      obtain ⟨hmg1, hlk1, hpres1, hvis1⟩ := dfs_ok_inv cfg fuel n st ps st1 hmg hd
      obtain ⟨hmg', hpres', hns', hvis'⟩ := ih st1 st' hmg1 h
      refine ⟨hmg', fun x v hx => hpres' x v (hpres1 x v hx), ?_, hvis'.trans hvis1⟩
      intro m hm
      rcases List.mem_cons.mp hm with rfl | hm
      · have := hpres' m ps hlk1
        simp [this]
      · exact hns' m hm

theorem runAll_err (cfg : RbacConfig) (fuel : Nat) :
    ∀ (ns : List String) (st : EffState) (e : RbacError),
    memoGood cfg st.effective →
    st.visiting = [] →
    runAll cfg fuel ns st = .error e →
    ∃ n stx, n ∈ ns ∧ stx.visiting = [] ∧ dfs cfg fuel n stx = .error e := by
  intro ns
  induction ns with
  | nil => intro st e _ _ h; simp [runAll] at h
  | cons n ns ih =>
    intro st e hmg hvisnil h
    rw [runAll] at h
    cases hd : dfs cfg fuel n st with
    | error e0 =>
      rw [hd] at h
      obtain rfl : e0 = e := by simpa using h
      exact ⟨n, st, List.mem_cons_self _ _, hvisnil, hd⟩
    | ok pr =>
      obtain ⟨ps, st1⟩ := pr
      rw [hd] at h
      obtain ⟨hmg1, _, _, hvis1⟩ := dfs_ok_inv cfg fuel n st ps st1 hmg hd
      obtain ⟨n', stx, hn', hvx, hdx⟩ := ih st1 e hmg1 (hvis1.trans hvisnil) h
      exact ⟨n', stx, List.mem_cons_of_mem _ hn', hvx, hdx⟩

/-- C3: on a valid configuration (every `extends` target exists, role
names unique), an acyclic `extends` graph yields, for every role, an
effective permission set holding exactly the direct permissions of the
role and of all its ancestors — equivalently, the role's direct
permissions unioned with its ancestors' effective sets — while any cycle
makes `_compute_effective_permissions` raise `RbacConfigError` naming a
role that lies on a cycle. -/
theorem effective_permissions_correct (cfg : RbacConfig)
    (hv : validExtendsB cfg = true) :
    ((¬ ∃ r, onCycle cfg r) → ∃ eff, computeEffectivePermissions cfg = .ok eff ∧
      ∀ r ro, cfg.roles.lookup r = some ro → ∃ ps, eff.lookup r = some ps ∧
        ∀ q, (q ∈ ps ↔ ∃ a roa, isAncestor cfg a r ∧ cfg.roles.lookup a = some roa ∧ q ∈ roa.permissions))
    ∧ (∀ r, onCycle cfg r → ∃ r', computeEffectivePermissions cfg = .error (RbacError.cycleAt r') ∧ onCycle cfg r') := by
  have hmg0 : memoGood cfg ([] : EffMap) := by
    intro r ps h
    simp [List.lookup] at h
  cases hrun : runAll cfg (cfg.roles.length + 1) (cfg.roles.map Prod.fst)
      { effective := [], visiting := [] } with
  | ok stf =>
    obtain ⟨hmgf, _, hkeys, _⟩ := runAll_ok_inv cfg _ _ _ stf hmg0 hrun
    have hok : computeEffectivePermissions cfg = .ok stf.effective := by
      unfold computeEffectivePermissions
      rw [hrun]
    constructor
    · intro _
      refine ⟨stf.effective, hok, ?_⟩
      intro r ro hro
      have hrk : r ∈ roleKeys cfg := mem_keys_of_lookup_isSome (by simp [hro])
      obtain ⟨ps, hps⟩ := Option.isSome_iff_exists.mp (hkeys r hrk)
      exact ⟨ps, hps, (hmgf r ps hps).2⟩
    · intro r hcyc
      exfalso
      have hrk : r ∈ roleKeys cfg := mem_keys_of_lookup_isSome (onCycle_lookup_isSome cfg r hcyc)
      obtain ⟨ps, hps⟩ := Option.isSome_iff_exists.mp (hkeys r hrk)
      exact onCycle_not_chainTerm cfg r hcyc (hmgf r ps hps).1
  | error e =>
    have herr : computeEffectivePermissions cfg = .error e := by
      unfold computeEffectivePermissions
      rw [hrun]
    obtain ⟨n, stx, hn, hvx, hdx⟩ := runAll_err cfg _ _ _ e hmg0 rfl hrun
    have hnk : (cfg.roles.lookup n).isSome := lookup_isSome_of_mem_keys hn
    have hrolen : (roleKeys cfg).length = cfg.roles.length := by simp [roleKeys]
    cases e with
    | cycleAt r' =>
      have hcyc' : onCycle cfg r' := by
        refine dfs_err_cycle cfg _ n stx r' ?_ hdx
        intro v hv'
        rw [hvx] at hv'
        simp at hv'
      exact ⟨fun hnocyc => absurd ⟨r', hcyc'⟩ hnocyc, fun r _ => ⟨r', herr, hcyc'⟩⟩
    | missingRole x =>
      exact absurd hdx (fun hc => dfs_no_missing cfg hv _ n stx x hnk hc)
    | outOfFuel =>
      exfalso
      refine dfs_no_outOfFuel cfg hv _ n stx hnk ?_ ?_ ?_ hdx
      · intro v hv'; rw [hvx] at hv'; simp at hv'
      · rw [hvx]; exact List.nodup_nil
      · rw [hvx]; simp [hrolen]

/-- Sample configuration for the witness: `admin` extends `manager`,
which extends nothing; acyclic and valid. -/
def c3Cfg : RbacConfig :=
  { roles := [("admin",
      { name := "admin", permissions := ["users.write"], extendsRole := some "manager"
        display_name := none, description := none }),
      ("manager",
      { name := "manager", permissions := ["users.read"], extendsRole := none
        display_name := none, description := none })]
    permissions := []
    public_rules := [] }

theorem effective_permissions_correct_witness :
    ((¬ ∃ r, onCycle c3Cfg r) → ∃ eff, computeEffectivePermissions c3Cfg = .ok eff ∧
      ∀ r ro, c3Cfg.roles.lookup r = some ro → ∃ ps, eff.lookup r = some ps ∧
        ∀ q, (q ∈ ps ↔ ∃ a roa, isAncestor c3Cfg a r ∧ c3Cfg.roles.lookup a = some roa ∧ q ∈ roa.permissions))
    ∧ (∀ r, onCycle c3Cfg r → ∃ r', computeEffectivePermissions c3Cfg = .error (RbacError.cycleAt r') ∧ onCycle c3Cfg r') :=
  effective_permissions_correct c3Cfg (by decide)

/-! ## Route-policy matching (security/config.py) -/

structure DefaultRule where
  auth_required : Bool
  required_roles : List String
  filter_by_department : Bool
  require_sensitive_permission : Bool
deriving DecidableEq, Repr

structure RouteRule where
  path : String
  methods : List String
  auth_required : Option Bool
  required_roles : List String
  filter_by_department : Option Bool
  require_sensitive_permission : Option Bool
deriving DecidableEq, Repr

def RouteRule.normalizedMethods (r : RouteRule) : List String :=
  r.methods.map upperStr

structure EffectiveRule where
  auth_required : Bool
  required_roles : List String
  filter_by_department : Bool
  require_sensitive_permission : Bool
deriving DecidableEq, Repr

/-- `_effective(rule, default)`: per-field default resolution, with auth
inferred to be required when the rule carries any explicit security
requirement and the rule leaves `auth_required` unset.  Python's
`rule.required_roles or default.required_roles` makes an empty role list
inherit the default. -/
def effectiveOf (rule : RouteRule) (default : DefaultRule) : EffectiveRule :=
  let inferred := default.auth_required || !rule.required_roles.isEmpty
    || rule.filter_by_department.getD false || rule.require_sensitive_permission.getD false
  { auth_required := match rule.auth_required with | none => inferred | some b => b
    required_roles := if rule.required_roles.isEmpty then default.required_roles else rule.required_roles
    filter_by_department :=
      match rule.filter_by_department with | none => default.filter_by_department | some b => b
    require_sensitive_permission :=
      match rule.require_sensitive_permission with
      | none => default.require_sensitive_permission
      | some b => b }

/-- The fallback `EffectiveRule` built from the default block alone. -/
def defaultEffective (default : DefaultRule) : EffectiveRule :=
  { auth_required := default.auth_required
    required_roles := default.required_roles
    filter_by_department := default.filter_by_department
    require_sensitive_permission := default.require_sensitive_permission }

/-- `SecurityConfig.match`: exact path-string candidates first (in
declaration order, as the `_exact_rules` dict preserves), then the
compiled templates in declaration order, then the default block. -/
def securityMatch (routes : List RouteRule) (default : DefaultRule) (path method : String) : EffectiveRule :=
  let m := upperStr method
  match (routes.filter (fun r => r.path == path)).find? (fun r => r.normalizedMethods.contains m) with
  | some rule => effectiveOf rule default
  | none =>
    match routes.find? (fun r => r.normalizedMethods.contains m && templateMatches r.path path) with
    | some rule => effectiveOf rule default
    | none => defaultEffective default

/-- `r` is the first element of `l` satisfying `p` (declaration order). -/
def firstSuchThat {α : Type} (p : α → Bool) (l : List α) (r : α) : Prop :=
  ∃ l1 l2, l = l1 ++ r :: l2 ∧ p r = true ∧ ∀ x ∈ l1, p x = false

theorem find?_eq_some_iff_first {α : Type} (p : α → Bool) (l : List α) (r : α) :
    l.find? p = some r ↔ firstSuchThat p l r := by
  induction l with
  | nil => simp [firstSuchThat]
  | cons a l ih =>
    by_cases hp : p a
    · simp only [List.find?_cons, hp, if_true]
      constructor
      · intro h
        obtain rfl : a = r := by injection h
        exact ⟨[], l, rfl, hp, by simp⟩
      · rintro ⟨l1, l2, heq, hr, hfirst⟩
        cases l1 with
        | nil =>
          obtain rfl : a = r := by simpa using congrArg (·.head?) heq
          rfl
        | cons b l1 =>
          have hb : b = a := by simpa using (congrArg (·.head?) heq).symm
          subst hb
          have := hfirst b (List.mem_cons_self _ _)
          rw [hp] at this
          exact absurd this (by simp)
    · have hp' : p a = false := by simpa using hp
      simp only [List.find?_cons, hp', if_false]
      rw [ih]
      constructor
      · rintro ⟨l1, l2, heq, hr, hfirst⟩
        refine ⟨a :: l1, l2, by simp [heq], hr, ?_⟩
        intro x hx
        rcases List.mem_cons.mp hx with rfl | hx
        · exact hp'
        · exact hfirst x hx
      · rintro ⟨l1, l2, heq, hr, hfirst⟩
        cases l1 with
        | nil =>
          obtain rfl : a = r := by simpa using congrArg (·.head?) heq
          simp [hp'] at hr
        | cons b l1 =>
          have hb : b = a := by simpa using (congrArg (·.head?) heq).symm
          subst hb
          refine ⟨l1, l2, ?_, hr, fun x hx => hfirst x (List.mem_cons_of_mem _ hx)⟩
          simpa using congrArg (·.tail) heq

theorem find?_filter_eq {α : Type} (p q : α → Bool) (l : List α) :
    (l.filter p).find? q = l.find? (fun x => p x && q x) := by
  induction l with
  | nil => rfl
  | cons a l ih =>
    cases hp : p a <;> cases hq : q a <;>
      simp [List.filter_cons, List.find?_cons, hp, hq, ih]

/-- C5: `SecurityConfig.match` precedence — first declared rule whose path
string equals the request path and whose method set contains the method;
otherwise the first declared rule whose method set contains the method and
whose template matches; otherwise the default block.  `_effective` field
resolution: an explicitly set optional field overrides the default, an
unset one inherits it, with auth inferred to be required when an unset
`auth_required` coexists with any explicit security requirement. -/
theorem security_match_spec (routes : List RouteRule) (default : DefaultRule) (path method : String) :
    (∀ r, firstSuchThat (fun r => r.path == path && r.normalizedMethods.contains (upperStr method)) routes r →
        securityMatch routes default path method = effectiveOf r default)
    ∧ ((∀ r ∈ routes, ¬(r.path = path ∧ (r.normalizedMethods.contains (upperStr method)) = true)) →
        ∀ r, firstSuchThat (fun r => r.normalizedMethods.contains (upperStr method) && templateMatches r.path path) routes r →
        securityMatch routes default path method = effectiveOf r default)
    ∧ ((∀ r ∈ routes, ¬(r.path = path ∧ (r.normalizedMethods.contains (upperStr method)) = true)) →
        (∀ r ∈ routes, ¬((r.normalizedMethods.contains (upperStr method)) = true ∧ templateMatches r.path path = true)) →
        securityMatch routes default path method = defaultEffective default)
    ∧ (∀ rule : RouteRule,
        (∀ b, rule.auth_required = some b → (effectiveOf rule default).auth_required = b)
        ∧ (rule.auth_required = none → rule.required_roles = [] →
            rule.filter_by_department.getD false = false →
            rule.require_sensitive_permission.getD false = false →
            (effectiveOf rule default).auth_required = default.auth_required)
        ∧ (rule.auth_required = none →
            (rule.required_roles ≠ [] ∨ rule.filter_by_department = some true ∨
              rule.require_sensitive_permission = some true) →
            (effectiveOf rule default).auth_required = true)
        ∧ (∀ b, rule.filter_by_department = some b → (effectiveOf rule default).filter_by_department = b)
        ∧ (rule.filter_by_department = none →
            (effectiveOf rule default).filter_by_department = default.filter_by_department)
        ∧ (∀ b, rule.require_sensitive_permission = some b →
            (effectiveOf rule default).require_sensitive_permission = b)
        ∧ (rule.require_sensitive_permission = none →
            (effectiveOf rule default).require_sensitive_permission = default.require_sensitive_permission)
        ∧ (rule.required_roles ≠ [] → (effectiveOf rule default).required_roles = rule.required_roles)
        ∧ (rule.required_roles = [] → (effectiveOf rule default).required_roles = default.required_roles)) := by
  refine ⟨?_, ?_, ?_, ?_⟩
  · intro r hfirst
    have hfind : routes.find? (fun r => r.path == path && r.normalizedMethods.contains (upperStr method)) = some r :=
      (find?_eq_some_iff_first _ routes r).mpr hfirst
    simp only [securityMatch]
    rw [find?_filter_eq]
    simp only [hfind]
  · intro hnoexact r hfirst
    have hexnone : routes.find? (fun r => r.path == path && r.normalizedMethods.contains (upperStr method)) = none := by
      rw [List.find?_eq_none]
      intro x hx hpx
      simp only [Bool.and_eq_true, beq_iff_eq] at hpx
      exact hnoexact x hx ⟨hpx.1, hpx.2⟩
    have hfind : routes.find? (fun r => r.normalizedMethods.contains (upperStr method) && templateMatches r.path path) = some r :=
      (find?_eq_some_iff_first _ routes r).mpr hfirst
    simp only [securityMatch]
    rw [find?_filter_eq]
    simp only [hexnone, hfind]
  · intro hnoexact hnotempl
    have hexnone : routes.find? (fun r => r.path == path && r.normalizedMethods.contains (upperStr method)) = none := by
      rw [List.find?_eq_none]
      intro x hx hpx
      simp only [Bool.and_eq_true, beq_iff_eq] at hpx
      exact hnoexact x hx ⟨hpx.1, hpx.2⟩
    have htnone : routes.find? (fun r => r.normalizedMethods.contains (upperStr method) && templateMatches r.path path) = none := by
      rw [List.find?_eq_none]
      intro x hx hpx
      simp only [Bool.and_eq_true] at hpx
      exact hnotempl x hx ⟨hpx.1, hpx.2⟩
    simp only [securityMatch]
    rw [find?_filter_eq]
    simp only [hexnone, htnone]
  · intro rule
    refine ⟨?_, ?_, ?_, ?_, ?_, ?_, ?_, ?_, ?_⟩
    · intro b hb; simp [effectiveOf, hb]
    · intro ha hr hf hs
      simp [effectiveOf, ha, hr, hf, hs]
    · intro ha hreq
      rcases hreq with hr | hf | hs
      · have : rule.required_roles.isEmpty = false := by
          simpa [List.isEmpty_iff] using hr
        simp [effectiveOf, ha, this]
      · simp [effectiveOf, ha, hf]
      · simp [effectiveOf, ha, hs]
    · intro b hb; simp [effectiveOf, hb]
    · intro hb; simp [effectiveOf, hb]
    · intro b hb; simp [effectiveOf, hb]
    · intro hb; simp [effectiveOf, hb]
    · intro hr
      have : rule.required_roles.isEmpty = false := by simpa [List.isEmpty_iff] using hr
      simp [effectiveOf, this]
    · intro hr
      have : rule.required_roles.isEmpty = true := by simpa [List.isEmpty_iff] using hr
      simp [effectiveOf, this]

def c5Default : DefaultRule :=
  { auth_required := false, required_roles := [], filter_by_department := false
    require_sensitive_permission := false }

def c5Rule : RouteRule :=
  { path := "/employees", methods := ["GET"], auth_required := none
    required_roles := ["HR"], filter_by_department := none
    require_sensitive_permission := none }

theorem security_match_spec_witness :
    securityMatch [c5Rule] c5Default "/employees" "get" = effectiveOf c5Rule c5Default :=
  (security_match_spec [c5Rule] c5Default "/employees" "get").1 c5Rule
    ⟨[], [], rfl, by decide, by simp⟩

/-! ## JWKS cache (jwks_cache.py)

Key material is embedded as a kid / material pair (`PyJWK` holding the
public key).  The upstream endpoint's current key set is the environment;
`time.monotonic()` timestamps are `Int`.  Every operation also reports
how many fetches (`_fetch` calls) it performed. -/

structure JwksKey where
  kid : String
  material : String
deriving DecidableEq, Repr

structure JwksEnv where
  upstream : List JwksKey
deriving DecidableEq, Repr

structure CacheState where
  data : Option (List JwksKey)
  fetchedAt : Int
deriving DecidableEq, Repr

/-- `JWKSCache._refresh`: fetch and replace the whole snapshot. -/
def cacheRefresh (env : JwksEnv) (now : Int) (_st : CacheState) : CacheState :=
  { data := some env.upstream, fetchedAt := now }

/-- `JWKSCache._ensure_fresh`: refresh only when empty or the TTL elapsed.
Returns the data served, the new state, and the number of fetches. -/
def ensureFresh (ttl : Int) (env : JwksEnv) (now : Int) (st : CacheState) :
    List JwksKey × CacheState × Nat :=
  match st.data with
  | none => (env.upstream, cacheRefresh env now st, 1)
  | some d =>
    if now - st.fetchedAt ≥ ttl then (env.upstream, cacheRefresh env now st, 1)
    else (d, st, 0)

/-- `JWKSCache._find_key`. -/
def findKey (kid : String) (d : List JwksKey) : Option JwksKey :=
  d.find? (fun k => k.kid == kid)

/-- `JWKSCache.get_signing_key`: serve from a fresh cache; on a miss,
force exactly one refresh (for key rotation) and return the result or
absence. -/
def getSigningKey (ttl : Int) (env : JwksEnv) (now : Int) (st : CacheState) (kid : String) :
    Option JwksKey × CacheState × Nat :=
  let (d, st1, n1) := ensureFresh ttl env now st
  match findKey kid d with
  | some k => (some k, st1, n1)
  | none =>
    let st2 := cacheRefresh env now st1
    (findKey kid env.upstream, st2, n1 + 1)

/-- C6: with a fresh cached key set, a lookup of a cached kid performs
zero fetches and leaves the state untouched, so two consecutive in-TTL
lookups perform zero fetches; a lookup of a kid absent from the fresh set
performs exactly one forced refetch and answers from the refetched
upstream set, with no further retries. -/
theorem jwks_cache_fetch_counts (ttl : Int) (env : JwksEnv) (now now2 t0 : Int)
    (d : List JwksKey) (kid : String)
    (hfresh : now - t0 < ttl) (hfresh2 : now2 - t0 < ttl) :
    ((findKey kid d).isSome →
      (getSigningKey ttl env now ⟨some d, t0⟩ kid).2.2 = 0 ∧
      (getSigningKey ttl env now ⟨some d, t0⟩ kid).2.1 = ⟨some d, t0⟩ ∧
      (getSigningKey ttl env now2 (getSigningKey ttl env now ⟨some d, t0⟩ kid).2.1 kid).2.2 = 0)
    ∧ (findKey kid d = none →
      (getSigningKey ttl env now ⟨some d, t0⟩ kid).2.2 = 1 ∧
      (getSigningKey ttl env now ⟨some d, t0⟩ kid).1 = findKey kid env.upstream) := by
  have hlt : ¬(now - t0 ≥ ttl) := by omega
  have hlt2 : ¬(now2 - t0 ≥ ttl) := by omega
  constructor
  · intro hk
    obtain ⟨k, hksome⟩ := Option.isSome_iff_exists.mp hk
    refine ⟨?_, ?_, ?_⟩ <;>
      simp [getSigningKey, ensureFresh, hlt, hlt2, hksome]
  · intro hk
    constructor <;> simp [getSigningKey, ensureFresh, hlt, hk]

theorem jwks_cache_fetch_counts_witness :
    (getSigningKey 3600 ⟨[⟨"kid1", "pem1"⟩]⟩ 10 ⟨some [⟨"kid1", "pem1"⟩], 5⟩ "kid1").2.2 = 0 ∧
    (getSigningKey 3600 ⟨[⟨"kid2", "pem2"⟩]⟩ 10 ⟨some [⟨"kid1", "pem1"⟩], 5⟩ "kid2").2.2 = 1 := by
  constructor
  · exact ((jwks_cache_fetch_counts 3600 ⟨[⟨"kid1", "pem1"⟩]⟩ 10 10 5 [⟨"kid1", "pem1"⟩] "kid1"
      (by decide) (by decide)).1 (by decide)).1
  · exact ((jwks_cache_fetch_counts 3600 ⟨[⟨"kid2", "pem2"⟩]⟩ 10 10 5 [⟨"kid1", "pem1"⟩] "kid2"
      (by decide) (by decide)).2 (by decide)).1

/-! ## Claim values and claims extraction (validator.py `_extract_claims`)

JSON claim values are embedded as `CVal` (strings, integers, booleans,
lists, null; floats do not occur in the claims the code reads).  Python
truthiness and `str()` are embedded alongside. -/

inductive CVal
  | s (v : String)
  | i (n : Int)
  | b (v : Bool)
  | l (vs : List CVal)
  | null

def CVal.truthy : CVal → Bool
  | .s v => !(v == "")
  | .i n => !(n == 0)
  | .b v => v
  | .l vs => !vs.isEmpty
  | .null => false

/-- Python `str()`.  The rendering of nested lists (Python would print a
`repr`) is not exercised by any claim and is abbreviated. -/
def CVal.toStr : CVal → String
  | .s v => v
  | .i n => toString n
  | .b true => "True"
  | .b false => "False"
  | .null => "None"
  | .l _ => "[list]"

def truthyOpt : Option CVal → Bool
  | some v => v.truthy
  | none => false

/-- The JWT payload dict, restricted to the claims the code reads.
`aud`/`iss`/`exp`/`nbf` are consumed by `jwt.decode`; the rest by
`_extract_claims`. -/
structure Payload where
  oid : Option CVal := none
  sub : Option CVal := none
  roles : Option CVal := none
  department : Option CVal := none
  scp : Option CVal := none
  preferred_username : Option CVal := none
  aud : Option String := none
  iss : Option String := none
  exp : Option Int := none
  nbf : Option Int := none

structure TokenContext where
  user_id : String
  roles : List String
  department : Option String
  scopes : List String
  preferred_username : Option String
deriving DecidableEq, Repr

/-- Python `str.split()` with no argument: split on whitespace runs,
dropping empty pieces. -/
def splitWs (s : String) : List String :=
  let step := fun (st : List String × List Char) (c : Char) =>
    if c.isWhitespace then
      match st.2 with
      | [] => (st.1, ([] : List Char))
      | w => (st.1 ++ [String.mk w.reverse], ([] : List Char))
    else (st.1, c :: st.2)
  let fin := s.data.foldl step ([], [])
  match fin.2 with
  | [] => fin.1
  | w => fin.1 ++ [String.mk w.reverse]

/-- `str(int(user_id)) if isinstance(user_id, (int, float)) else str(user_id)`
(a Python `bool` is an `int`, so `True` renders as `"1"`). -/
def strOfIdClaim : CVal → String
  | .i n => toString n
  | .b true => "1"
  | .b false => "0"
  | v => v.toStr

/-- `payload.get("oid") or payload.get("sub") or ""`, then the string
conversion above. -/
def userIdOf (oid sub : Option CVal) : String :=
  let fromSub : CVal :=
    match sub with
    | some s1 => if s1.truthy then s1 else CVal.s ""
    | none => CVal.s ""
  let v : CVal :=
    match oid with
    | some o => if o.truthy then o else fromSub
    | none => fromSub
  strOfIdClaim v

/-- `_extract_claims`. -/
def extractClaims (p : Payload) : TokenContext :=
  let user_id := userIdOf p.oid p.sub
  let roles : List String :=
    match p.roles with
    | some (CVal.l vs) => vs.map CVal.toStr
    | some (CVal.s r) => [r]
    | _ => []
  let department : Option String :=
    match p.department with
    | some v => if v.truthy then some v.toStr else none
    | none => none
  let scopes : List String :=
    match p.scp with
    | some (CVal.s sv) => (splitWs sv).filter (fun t => !(t == ""))
    | some (CVal.l vs) => vs.map CVal.toStr
    | _ => []
  let preferred_username : Option String :=
    match p.preferred_username with
    | some v => some v.toStr
    | none => none
  { user_id := user_id, roles := roles, department := department
    scopes := scopes, preferred_username := preferred_username }

/-! ## Entra configuration (msal_util/config.py) -/

structure EntraConfig where
  tenant_id : String
  client_id : String
  audience : Option String
  clock_skew_seconds : Int
  jwks_cache_ttl_seconds : Int
  graph_enabled : Bool
  client_secret : Option String
deriving DecidableEq, Repr

/-- `self.audience if self.audience else self.client_id` (empty string is
falsy). -/
def EntraConfig.expected_audience (c : EntraConfig) : String :=
  match c.audience with
  | some a => if a == "" then c.client_id else a
  | none => c.client_id

def EntraConfig.issuer (c : EntraConfig) : String :=
  "https://login.microsoftonline.com/" ++ c.tenant_id ++ "/v2.0"

/-! ## Graph role fallback (graph_client.py) -/

structure GraphEntry where
  odataType : String
  displayName : Option String
deriving DecidableEq, Repr

structure GraphPage where
  value : List GraphEntry
  nextLink : Bool
deriving DecidableEq, Repr

/-- Outcome of one `requests.get` on the `memberOf` URL chain. -/
inductive GraphResp
  | ok (page : GraphPage)
  | httpErr
  | transportErr
deriving DecidableEq, Repr

structure GraphEnv where
  tokenOk : Bool
  pages : List GraphResp
deriving DecidableEq, Repr

/-- `_GROUP_TYPES`. -/
def groupTypes : List String :=
  ["#microsoft.graph.group", "#microsoft.graph.directoryRole"]

/-- Names collected from one page: group-like entries with a truthy
display name. -/
def pageRoles (page : GraphPage) : List String :=
  page.value.filterMap (fun e =>
    if groupTypes.contains e.odataType then
      match e.displayName with
      | some dn => if dn == "" then none else some dn
      | none => none
    else none)

/-- The `while url:` pagination loop.  A non-200 status or a
`RequestException` ends the loop returning the roles collected so far. -/
def collectPages : List GraphResp → List String → List String
  | [], acc => acc
  | resp :: rest, acc =>
    match resp with
    | .transportErr => acc
    | .httpErr => acc
    | .ok page =>
      let acc1 := acc ++ pageRoles page
      if page.nextLink then collectPages rest acc1 else acc1

def secretMissing (c : EntraConfig) : Bool :=
  match c.client_secret with
  | none => true
  | some s => s == ""

/-- `resolve_roles_via_graph`: guard on secret and oid, acquire the app
token (any failure is caught and yields `[]`), then paginate. -/
def resolveRolesViaGraph (genv : GraphEnv) (cfg : EntraConfig) (user_oid : String) : List String :=
  if secretMissing cfg || user_oid == "" then []
  else if !genv.tokenOk then []
  else collectPages genv.pages []

/-! ## Token validation (validator.py) -/

structure JwtToken where
  kid : Option String
  sigMaterial : Option String
  structOk : Bool
  payload : Payload

inductive JwtError
  | expiredSignature
  | invalidIssuer
  | invalidAudience
  | invalidToken
deriving DecidableEq, Repr

/-- `nbf` lies in the future beyond the leeway. -/
def nbfViolated (p : Payload) (leeway now : Int) : Bool :=
  match p.nbf with
  | some n => decide (now + leeway < n)
  | none => false

/-- `exp` has passed beyond the leeway. -/
def expViolated (p : Payload) (leeway now : Int) : Bool :=
  match p.exp with
  | some e => decide (e ≤ now - leeway)
  | none => false

/-- Modelled from the PyJWT library (a third-party collaborator of
validator.py): `jwt.decode` with `verify_signature/exp/nbf/iss/aud` all
enabled.  `sigMaterial` is the key material the token signature verifies
under (`none` when tampered); `structOk` covers the remaining structural
checks (`DecodeError` and friends).  Signature, `nbf`, `exp`, `aud`,
`iss` failures raise, with `nbf` violations and missing required claims
surfacing as generic `InvalidTokenError` subclasses. -/
def jwtDecode (tok : JwtToken) (keyMaterial audience issuer : String) (leeway now : Int) :
    Except JwtError Payload :=
  if !tok.structOk then .error .invalidToken
  else if !(tok.sigMaterial == some keyMaterial) then .error .invalidToken
  else if nbfViolated tok.payload leeway now then .error .invalidToken
  else if expViolated tok.payload leeway now then .error .expiredSignature
  else
    match tok.payload.aud with
    | none => .error .invalidToken
    | some a =>
      if !(a == audience) then .error .invalidAudience
      else
        match tok.payload.iss with
        | none => .error .invalidToken
        | some i =>
          if !(i == issuer) then .error .invalidIssuer
          else .ok tok.payload

inductive VError
  | missingKid
  | unknownKid
  | expired
  | issuer
  | audience
  | invalid
deriving DecidableEq, Repr

/-- The `ValidationError` messages raised by `validate_and_extract`:
fixed strings that never embed token material. -/
def vErrorMessage : VError → String
  | .missingKid => "Invalid token: missing key id"
  | .unknownKid => "Invalid token: unknown signing key"
  | .expired => "Token expired"
  | .issuer => "Invalid token: issuer"
  | .audience => "Invalid token: audience"
  | .invalid => "Invalid token"

structure ValidateResult where
  result : Except VError TokenContext
  cache : CacheState
  graphInvoked : Bool

/-- The Graph fallback tail of `validate_and_extract`: when the extracted
context carries no roles and fallback is enabled and an oid/sub claim is
truthy, query Graph; replace the roles only when Graph returned any.
The second component records whether Graph was invoked. -/
def graphStep (cfg : EntraConfig) (genv : GraphEnv) (payload : Payload) (ctx : TokenContext) :
    TokenContext × Bool :=
  if ctx.roles.isEmpty && cfg.graph_enabled then
    match (match payload.oid with
           | some o => if o.truthy then some o else payload.sub
           | none => payload.sub) with
    | some v =>
      if v.truthy then
        let graphRoles := resolveRolesViaGraph genv cfg v.toStr
        (if graphRoles.isEmpty then ctx else { ctx with roles := graphRoles }, true)
      else (ctx, false)
    | none => (ctx, false)
  else (ctx, false)

/-- `EntraTokenValidator.validate_and_extract`. -/
def validateAndExtract (cfg : EntraConfig) (env : JwksEnv) (genv : GraphEnv) (now : Int)
    (st : CacheState) (tok : JwtToken) : ValidateResult :=
  match tok.kid with
  | none => ⟨.error .missingKid, st, false⟩
  | some kid =>
    let lk := getSigningKey cfg.jwks_cache_ttl_seconds env now st kid
    match lk.1 with
    | none => ⟨.error .unknownKid, lk.2.1, false⟩
    | some key =>
      match jwtDecode tok key.material cfg.expected_audience cfg.issuer cfg.clock_skew_seconds now with
      | .error .expiredSignature => ⟨.error .expired, lk.2.1, false⟩
      | .error .invalidIssuer => ⟨.error .issuer, lk.2.1, false⟩
      | .error .invalidAudience => ⟨.error .audience, lk.2.1, false⟩
      | .error .invalidToken => ⟨.error .invalid, lk.2.1, false⟩
      | .ok payload =>
        let ctx := extractClaims payload
        let gr := graphStep cfg genv payload ctx
        ⟨.ok gr.1, lk.2.1, gr.2⟩

/-! ### Theorems about claims extraction, validation and the Graph fallback -/

/-- C9: the extracted identity prefers a truthy `oid` over `sub` for the
canonical user id; roles come from a list claim, or a singleton from a
string claim, and default to empty; scopes split a space-delimited string
claim or map a list claim; department is taken only when present and
truthy; the display name is optional. -/
theorem extract_claims_spec (p : Payload) :
    (∀ v, p.oid = some v → v.truthy = true → (extractClaims p).user_id = strOfIdClaim v)
    ∧ (truthyOpt p.oid = false → ∀ w, p.sub = some w → w.truthy = true →
        (extractClaims p).user_id = strOfIdClaim w)
    ∧ (∀ vs, p.roles = some (CVal.l vs) → (extractClaims p).roles = vs.map CVal.toStr)
    ∧ (∀ r, p.roles = some (CVal.s r) → (extractClaims p).roles = [r])
    ∧ (p.roles = none → (extractClaims p).roles = [])
    ∧ (∀ sv, p.scp = some (CVal.s sv) →
        (extractClaims p).scopes = (splitWs sv).filter (fun t => !(t == "")))
    ∧ (∀ vs, p.scp = some (CVal.l vs) → (extractClaims p).scopes = vs.map CVal.toStr)
    ∧ (∀ v, p.department = some v → v.truthy = true → (extractClaims p).department = some v.toStr)
    ∧ (truthyOpt p.department = false → (extractClaims p).department = none)
    ∧ (p.preferred_username = none → (extractClaims p).preferred_username = none)
    ∧ (∀ v, p.preferred_username = some v → (extractClaims p).preferred_username = some v.toStr) := by
  refine ⟨?_, ?_, ?_, ?_, ?_, ?_, ?_, ?_, ?_, ?_, ?_⟩
  · intro v hv ht
    simp [extractClaims, userIdOf, hv, ht]
  · intro hfalsy w hw ht
    cases hoid : p.oid with
    | none => simp [extractClaims, userIdOf, hoid, hw, ht]
    | some o =>
      rw [hoid] at hfalsy
      simp only [truthyOpt] at hfalsy
      simp [extractClaims, userIdOf, hoid, hfalsy, hw, ht]
  · intro vs hvs; simp [extractClaims, hvs]
  · intro r hr; simp [extractClaims, hr]
  · intro hr; simp [extractClaims, hr]
  · intro sv hsv; simp [extractClaims, hsv]
  · intro vs hvs; simp [extractClaims, hvs]
  · intro v hv ht; simp [extractClaims, hv, ht]
  · intro hfalsy
    cases hd : p.department with
    | none => simp [extractClaims, hd]
    | some v =>
      rw [hd] at hfalsy
      simp only [truthyOpt] at hfalsy
      simp [extractClaims, hd, hfalsy]
  · intro hp; simp [extractClaims, hp]
  · intro v hv; simp [extractClaims, hv]

def c9Payload : Payload :=
  { oid := some (CVal.s "oid-123"), sub := some (CVal.s "sub-456")
    roles := some (CVal.l [CVal.s "Admin"]), department := some (CVal.s "IT")
    scp := some (CVal.s "User.Read Files.Read")
    preferred_username := some (CVal.s "user at contoso") }

theorem extract_claims_spec_witness :
    (extractClaims c9Payload).user_id = "oid-123" ∧
    (extractClaims c9Payload).roles = ["Admin"] ∧
    (extractClaims c9Payload).department = some "IT" := by
  refine ⟨?_, ?_, ?_⟩
  · exact (extract_claims_spec c9Payload).1 (CVal.s "oid-123") rfl (by decide)
  · simpa using (extract_claims_spec c9Payload).2.2.1 [CVal.s "Admin"] rfl
  · exact (extract_claims_spec c9Payload).2.2.2.2.2.2.2.1 (CVal.s "IT") rfl (by decide)

theorem jwtDecode_ok_payload (tok : JwtToken) (key aud iss : String) (leeway now : Int)
    (p : Payload) (h : jwtDecode tok key aud iss leeway now = .ok p) : p = tok.payload := by
  unfold jwtDecode at h
  repeat' split at h
  all_goals simp_all

theorem jwtDecode_error_iff (tok : JwtToken) (key aud iss : String) (leeway now : Int) :
    (∃ er, jwtDecode tok key aud iss leeway now = .error er) ↔
      (tok.structOk = false ∨ tok.sigMaterial ≠ some key
        ∨ nbfViolated tok.payload leeway now = true
        ∨ expViolated tok.payload leeway now = true
        ∨ tok.payload.aud ≠ some aud
        ∨ tok.payload.iss ≠ some iss) := by
  unfold jwtDecode
  by_cases h1 : tok.structOk = true
  case neg =>
    have h1' : tok.structOk = false := by simpa using h1
    simp [h1']
  case pos =>
    by_cases h2 : tok.sigMaterial = some key
    case neg => simp [h1, h2]
    case pos =>
      by_cases h3 : nbfViolated tok.payload leeway now = true
      case pos => simp [h1, h2, h3]
      case neg =>
        have h3' : nbfViolated tok.payload leeway now = false := by simpa using h3
        by_cases h4 : expViolated tok.payload leeway now = true
        case pos => simp [h1, h2, h3', h4]
        case neg =>
          have h4' : expViolated tok.payload leeway now = false := by simpa using h4
          cases haud : tok.payload.aud with
          | none => simp [h1, h2, h3', h4', haud]
          | some a =>
            by_cases h5 : a = aud
            case neg => simp [h1, h2, h3', h4', haud, h5]
            case pos =>
              subst h5
              cases hiss : tok.payload.iss with
              | none => simp [h1, h2, h3', h4', haud, hiss]
              | some i =>
                by_cases h6 : i = iss
                case neg => simp [h1, h2, h3', h4', haud, hiss, h6]
                case pos => subst h6; simp [h1, h2, h3', h4', haud, hiss]

/-- C2: `validate_and_extract` fails exactly when the header kid is
missing or unreadable, or no signing key is found (even after the forced
JWKS refresh, per `getSigningKey`), or the signature does not verify
under the found key, or `nbf`/`exp` violate the leeway, or the audience
or issuer differs from the configured values, or the token is otherwise
structurally invalid — and every error carries one of six fixed messages,
none of which embeds token material. -/
theorem validate_error_characterization (cfg : EntraConfig) (env : JwksEnv) (genv : GraphEnv)
    (now : Int) (st : CacheState) (tok : JwtToken) :
    ((∃ e, (validateAndExtract cfg env genv now st tok).result = .error e) ↔
      (tok.kid = none
        ∨ ∃ kid, tok.kid = some kid ∧
          ((getSigningKey cfg.jwks_cache_ttl_seconds env now st kid).1 = none
            ∨ ∃ key, (getSigningKey cfg.jwks_cache_ttl_seconds env now st kid).1 = some key ∧
              (tok.structOk = false
                ∨ tok.sigMaterial ≠ some key.material
                ∨ nbfViolated tok.payload cfg.clock_skew_seconds now = true
                ∨ expViolated tok.payload cfg.clock_skew_seconds now = true
                ∨ tok.payload.aud ≠ some cfg.expected_audience
                ∨ tok.payload.iss ≠ some cfg.issuer))))
    ∧ (∀ e, (validateAndExtract cfg env genv now st tok).result = .error e →
        vErrorMessage e = "Invalid token: missing key id"
        ∨ vErrorMessage e = "Invalid token: unknown signing key"
        ∨ vErrorMessage e = "Token expired"
        ∨ vErrorMessage e = "Invalid token: issuer"
        ∨ vErrorMessage e = "Invalid token: audience"
        ∨ vErrorMessage e = "Invalid token") := by
  constructor
  · cases hkid : tok.kid with
    | none =>
      constructor
      · intro _
        exact Or.inl rfl
      · intro _
        exact ⟨VError.missingKid, by simp [validateAndExtract, hkid]⟩
    | some kid =>
      simp only [validateAndExtract, hkid]
      cases hlk : (getSigningKey cfg.jwks_cache_ttl_seconds env now st kid).1 with
      | none =>
        simp only [hlk]
        constructor
        · intro _
          exact Or.inr ⟨kid, rfl, Or.inl hlk⟩
        · intro _
          exact ⟨VError.unknownKid, rfl⟩
      | some key =>
        simp only [hlk]
        cases hdec : jwtDecode tok key.material cfg.expected_audience cfg.issuer
            cfg.clock_skew_seconds now with
        | error er =>
          have hrhs := (jwtDecode_error_iff tok key.material cfg.expected_audience cfg.issuer
            cfg.clock_skew_seconds now).mp ⟨er, hdec⟩
          cases er <;>
          · simp only [hdec]
            constructor
            · intro _
              exact Or.inr ⟨kid, rfl, Or.inr ⟨key, hlk, hrhs⟩⟩
            · intro _
              exact ⟨_, rfl⟩
        | ok payload =>
          simp only [hdec]
          constructor
          · rintro ⟨e, he⟩
            exact absurd he (by simp)
          · rintro (hk | ⟨kid1, hkid1, hrest⟩)
            · exact Option.noConfusion hk
            · injection hkid1 with hh
              subst hh
              rcases hrest with hnone | ⟨key1, hkey1, hdisj⟩
              · rw [hlk] at hnone
                exact Option.noConfusion hnone
              · rw [hlk] at hkey1
                injection hkey1 with hh2
                subst hh2
                obtain ⟨er, her⟩ := (jwtDecode_error_iff tok key.material cfg.expected_audience
                  cfg.issuer cfg.clock_skew_seconds now).mpr hdisj
                rw [hdec] at her
                exact Except.noConfusion her
  · intro e _
    cases e <;> simp [vErrorMessage]

def c2Cfg : EntraConfig :=
  { tenant_id := "tenant-1", client_id := "api-client", audience := none
    clock_skew_seconds := 120, jwks_cache_ttl_seconds := 3600
    graph_enabled := false, client_secret := none }

def c2Tok : JwtToken :=
  { kid := none, sigMaterial := some "pem1", structOk := true, payload := {} }

theorem validate_error_characterization_witness :
    ∃ e, (validateAndExtract c2Cfg ⟨[]⟩ ⟨false, []⟩ 0 ⟨none, 0⟩ c2Tok).result = .error e :=
  (validate_error_characterization c2Cfg ⟨[]⟩ ⟨false, []⟩ 0 ⟨none, 0⟩ c2Tok).1.mpr (Or.inl rfl)

/-! ### The Graph fallback (C7) -/

def c7Cfg : EntraConfig :=
  { tenant_id := "t", client_id := "c", audience := none, clock_skew_seconds := 60
    jwks_cache_ttl_seconds := 3600, graph_enabled := true, client_secret := some "secret" }

def c7Env : GraphEnv :=
  { tokenOk := true
    pages := [GraphResp.ok ⟨[⟨"#microsoft.graph.group", some "Group-A"⟩], true⟩,
              GraphResp.transportErr] }

/-- C7 counterexample: a transport failure while following the
continuation link of the second page does NOT yield an empty role list —
the loop returns the names already collected ("return whatever we
collected so far"), contradicting the claim that any transport failure
results in an empty role list. -/
theorem graph_transport_partial_cex :
    c7Env.pages = [GraphResp.ok ⟨[⟨"#microsoft.graph.group", some "Group-A"⟩], true⟩,
      GraphResp.transportErr] ∧
    resolveRolesViaGraph c7Env c7Cfg "oid-1" = ["Group-A"] ∧
    resolveRolesViaGraph c7Env c7Cfg "oid-1" ≠ [] := by
  refine ⟨rfl, rfl, by decide⟩

theorem graphStep_invoked (cfg : EntraConfig) (genv : GraphEnv) (payload : Payload)
    (ctx : TokenContext) (h : (graphStep cfg genv payload ctx).2 = true) :
    ctx.roles.isEmpty = true ∧ cfg.graph_enabled = true := by
  by_cases hcond : (ctx.roles.isEmpty && cfg.graph_enabled) = true
  · exact ⟨(Bool.and_eq_true _ _ |>.mp hcond).1, (Bool.and_eq_true _ _ |>.mp hcond).2⟩
  · unfold graphStep at h
    rw [if_neg hcond] at h
    simp at h

/-- C7 (amended): the Graph fallback is invoked only when the extracted
identity carries zero roles and fallback is enabled; a credential
acquisition failure, or a transport failure before any page is
retrieved, yields an empty role list (the resolver itself is a total
function — it never raises); a mid-pagination failure returns the names
collected so far (see `graph_transport_partial_cex`). -/
theorem graph_fallback_amended :
    (∀ (cfg : EntraConfig) (env : JwksEnv) (genv : GraphEnv) (now : Int) (st : CacheState)
        (tok : JwtToken),
        (validateAndExtract cfg env genv now st tok).graphInvoked = true →
        cfg.graph_enabled = true ∧ (extractClaims tok.payload).roles = [])
    ∧ (∀ (genv : GraphEnv) (cfg : EntraConfig) (oid : String), genv.tokenOk = false →
        resolveRolesViaGraph genv cfg oid = [])
    ∧ (∀ (genv : GraphEnv) (cfg : EntraConfig) (oid : String) (rest : List GraphResp),
        genv.pages = GraphResp.transportErr :: rest →
        resolveRolesViaGraph genv cfg oid = []) := by
  refine ⟨?_, ?_, ?_⟩
  · intro cfg env genv now st tok h
    cases hkid : tok.kid with
    | none => simp [validateAndExtract, hkid] at h
    | some kid =>
      simp only [validateAndExtract, hkid] at h
      cases hlk : (getSigningKey cfg.jwks_cache_ttl_seconds env now st kid).1 with
      | none => simp [hlk] at h
      | some key =>
        simp only [hlk] at h
        cases hdec : jwtDecode tok key.material cfg.expected_audience cfg.issuer
            cfg.clock_skew_seconds now with
        | error er => cases er <;> simp [hdec] at h
        | ok payload =>
          simp only [hdec] at h
          obtain rfl : payload = tok.payload :=
            jwtDecode_ok_payload tok key.material cfg.expected_audience cfg.issuer
              cfg.clock_skew_seconds now payload hdec
          obtain ⟨hempty, henabled⟩ := graphStep_invoked cfg genv tok.payload _ h
          exact ⟨henabled, List.isEmpty_iff.mp hempty⟩
  · intro genv cfg oid h
    unfold resolveRolesViaGraph
    by_cases hg : (secretMissing cfg || oid == "") = true
    · rw [if_pos hg]
    · rw [if_neg hg, if_pos (by simp [h])]
  · intro genv cfg oid rest h
    unfold resolveRolesViaGraph
    by_cases hg : (secretMissing cfg || oid == "") = true
    · rw [if_pos hg]
    · rw [if_neg hg]
      by_cases ht : (!genv.tokenOk) = true
      · rw [if_pos ht]
      · rw [if_neg ht, h]
        rfl

theorem graph_fallback_amended_witness :
    resolveRolesViaGraph ⟨false, []⟩ c7Cfg "oid-1" = [] :=
  graph_fallback_amended.2.1 ⟨false, []⟩ c7Cfg "oid-1" rfl

/-! ## Authorization context (security/context.py) and row scoping (db/filters.py)

`_apply_authorization_filters` adds `with_loader_criteria` options to the
statement of a select; a statement is embedded as its list of applied
criteria, and a criterion restricts only rows of its own entity class. -/

structure AuthzContext where
  user_id : Int
  department_id : Int
  roles : List String
  permissions : List String
  filter_by_department : Bool
  require_sensitive_permission : Bool
  can_view_cross_department : Bool
  can_view_sensitive_data : Bool
deriving DecidableEq, Repr

/-- The two enrolled entity classes (`Employee`, `PerformanceReview`). -/
inductive ScopedEntity
  | employee
  | performanceReview
deriving DecidableEq, Repr

inductive Criterion
  | deptEq (entity : ScopedEntity) (department_id : Int)
  | notSensitive (entity : ScopedEntity)
deriving DecidableEq, Repr

structure Stmt where
  criteria : List Criterion
deriving DecidableEq, Repr

structure ExecuteState where
  isSelect : Bool
  authz : Option AuthzContext
  statement : Stmt
deriving DecidableEq, Repr

/-- `_apply_authorization_filters` (the `do_orm_execute` hook). -/
def applyAuthorizationFilters (es : ExecuteState) : ExecuteState :=
  if !es.isSelect then es
  else
    match es.authz with
    | none => es
    | some a =>
      let s1 :=
        if a.filter_by_department && !a.can_view_cross_department then
          Stmt.mk (es.statement.criteria ++
            [Criterion.deptEq ScopedEntity.employee a.department_id,
             Criterion.deptEq ScopedEntity.performanceReview a.department_id])
        else es.statement
      let s2 :=
        if a.require_sensitive_permission && !a.can_view_sensitive_data then
          Stmt.mk (s1.criteria ++
            [Criterion.notSensitive ScopedEntity.employee,
             Criterion.notSensitive ScopedEntity.performanceReview])
        else s1
      { es with statement := s2 }

structure Row where
  entity : ScopedEntity
  department_id : Int
  is_sensitive : Bool
deriving DecidableEq, Repr

/-- `with_loader_criteria` applies its predicate only to rows of its
entity class. -/
def evalCriterion (r : Row) : Criterion → Bool
  | .deptEq e d => if r.entity = e then r.department_id == d else true
  | .notSensitive e => if r.entity = e then !r.is_sensitive else true

/-- Applied criteria combine conjunctively on the statement. -/
def rowVisible (s : Stmt) (r : Row) : Bool :=
  s.criteria.all (evalCriterion r)

theorem applyFilters_criteria (es : ExecuteState) (a : AuthzContext)
    (hsel : es.isSelect = true) (hauthz : es.authz = some a) :
    (applyAuthorizationFilters es).statement.criteria =
      es.statement.criteria
      ++ (if a.filter_by_department && !a.can_view_cross_department then
            [Criterion.deptEq ScopedEntity.employee a.department_id,
             Criterion.deptEq ScopedEntity.performanceReview a.department_id] else [])
      ++ (if a.require_sensitive_permission && !a.can_view_sensitive_data then
            [Criterion.notSensitive ScopedEntity.employee,
             Criterion.notSensitive ScopedEntity.performanceReview] else []) := by
  unfold applyAuthorizationFilters
  rw [hsel, hauthz]
  by_cases h1 : (a.filter_by_department && !a.can_view_cross_department) = true <;>
    by_cases h2 : (a.require_sensitive_permission && !a.can_view_sensitive_data) = true <;>
      simp [h1, h2]

/-- C4: non-select statements and sessions without an authorization
context are never modified; on a select with a context, the department
predicate (over both enrolled entities) is appended exactly when
department scoping is on and the cross-department capability is absent,
the sensitivity predicate exactly when sensitivity scoping is on and the
sensitive-data capability is absent, and the applied predicates combine
conjunctively: a row is visible iff it passed the original statement and
each active predicate. -/
theorem scoping_filters_spec (es : ExecuteState) :
    (es.isSelect = false → applyAuthorizationFilters es = es)
    ∧ (es.authz = none → applyAuthorizationFilters es = es)
    ∧ (∀ a, es.isSelect = true → es.authz = some a →
        ((Criterion.deptEq ScopedEntity.employee a.department_id ∈
            (applyAuthorizationFilters es).statement.criteria ↔
          (Criterion.deptEq ScopedEntity.employee a.department_id ∈ es.statement.criteria ∨
            (a.filter_by_department = true ∧ a.can_view_cross_department = false)))
        ∧ (Criterion.notSensitive ScopedEntity.employee ∈
            (applyAuthorizationFilters es).statement.criteria ↔
          (Criterion.notSensitive ScopedEntity.employee ∈ es.statement.criteria ∨
            (a.require_sensitive_permission = true ∧ a.can_view_sensitive_data = false)))))
    ∧ (∀ a r, es.isSelect = true → es.authz = some a →
        (rowVisible (applyAuthorizationFilters es).statement r = true ↔
          (rowVisible es.statement r = true
            ∧ (a.filter_by_department = true → a.can_view_cross_department = false →
                r.department_id = a.department_id)
            ∧ (a.require_sensitive_permission = true → a.can_view_sensitive_data = false →
                r.is_sensitive = false)))) := by
  refine ⟨?_, ?_, ?_, ?_⟩
  · intro h
    unfold applyAuthorizationFilters
    rw [h]
    rfl
  · intro h
    unfold applyAuthorizationFilters
    rw [h]
    cases hsel : es.isSelect <;> rfl
  · intro a hsel hauthz
    rw [applyFilters_criteria es a hsel hauthz]
    constructor
    · by_cases h1 : (a.filter_by_department && !a.can_view_cross_department) = true <;>
        by_cases h2 : (a.require_sensitive_permission && !a.can_view_sensitive_data) = true <;>
          simp_all [Bool.and_eq_true]
    · by_cases h1 : (a.filter_by_department && !a.can_view_cross_department) = true <;>
        by_cases h2 : (a.require_sensitive_permission && !a.can_view_sensitive_data) = true <;>
          simp_all [Bool.and_eq_true]
  · intro a r hsel hauthz
    unfold rowVisible
    rw [applyFilters_criteria es a hsel hauthz]
    by_cases h1 : (a.filter_by_department && !a.can_view_cross_department) = true <;>
      by_cases h2 : (a.require_sensitive_permission && !a.can_view_sensitive_data) = true <;>
        cases hent : r.entity <;>
          simp_all [Bool.and_eq_true, List.all_append, evalCriterion, hent]

def c4Authz : AuthzContext :=
  { user_id := 7, department_id := 3, roles := ["Employee"], permissions := []
    filter_by_department := true, require_sensitive_permission := true
    can_view_cross_department := false, can_view_sensitive_data := false }

theorem scoping_filters_spec_witness :
    rowVisible (applyAuthorizationFilters
        ⟨true, some c4Authz, ⟨[]⟩⟩).statement ⟨ScopedEntity.employee, 3, false⟩ = true := by
  refine ((scoping_filters_spec ⟨true, some c4Authz, ⟨[]⟩⟩).2.2.2 c4Authz
    ⟨ScopedEntity.employee, 3, false⟩ rfl rfl).mpr ⟨by decide, ?_, ?_⟩
  · intro _ _
    rfl
  · intro _ _
    rfl

/-! ## Per-request enforcement (security/dependencies.py) -/

structure DbUser where
  id : Int
  department_id : Int
  roles : List String
deriving DecidableEq, Repr

/-- `_derive_permissions`: the capability names whose configured role set
meets the user's role names. -/
def derivePermissions (perms : List (String × List String)) (userRoles : List String) : List String :=
  perms.filterMap (fun nr => if userRoles.any (fun r => nr.2.contains r) then some nr.1 else none)

inductive SecOutcome
  | noAuth
  | unauthorizedMissingId
  | unauthorizedBadUser
  | forbidden (required : List String)
  | allowed (ctx : AuthzContext)
deriving DecidableEq, Repr

/-- `enforce_security`: match the route rule, read decorator metadata,
decide whether auth is needed, authenticate, gate on the merged required
roles, then build the request's `AuthzContext`.  The user id extraction
and the active-user database load are represented by `userIdOpt` and the
`db` table (absence covering the 401 paths of `extract_user_id` and
`load_user`). -/
def enforceSecurity (routes : List RouteRule) (default : DefaultRule)
    (perms : List (String × List String)) (path method : String)
    (decoratorRoles : List String) (decoratorDept decoratorSens : Bool)
    (userIdOpt : Option Int) (db : List (Int × DbUser)) : SecOutcome :=
  let rule := securityMatch routes default path method
  let authRequired := rule.auth_required || !decoratorRoles.isEmpty || decoratorDept || decoratorSens
  if !authRequired then .noAuth
  else
    match userIdOpt with
    | none => .unauthorizedMissingId
    | some uid =>
      match db.lookup uid with
      | none => .unauthorizedBadUser
      | some user =>
        let userRoles := user.roles
        let userPermissions := derivePermissions perms userRoles
        let requiredRoles := rule.required_roles ++ decoratorRoles
        if !requiredRoles.isEmpty && !userRoles.any (fun r => requiredRoles.contains r) then
          .forbidden requiredRoles
        else
          .allowed
            { user_id := user.id
              department_id := user.department_id
              roles := userRoles
              permissions := userPermissions
              filter_by_department := rule.filter_by_department || decoratorDept
              require_sensitive_permission := rule.require_sensitive_permission || decoratorSens
              can_view_cross_department := userPermissions.contains "view_cross_department"
              can_view_sensitive_data := userPermissions.contains "view_sensitive_data" }

/-- C8: the enforced required-role set is the union of the matched rule's
roles and the decorator metadata roles, each scoping flag the OR of the
two layers; when no layer requires auth the outcome is `noAuth` and no
context is built; and with an authenticated user and a non-empty merged
role set, the request is allowed iff the user's roles meet the merged
set, and fails as forbidden otherwise. -/
theorem enforce_security_spec (routes : List RouteRule) (default : DefaultRule)
    (perms : List (String × List String)) (path method : String)
    (decoratorRoles : List String) (decoratorDept decoratorSens : Bool)
    (userIdOpt : Option Int) (db : List (Int × DbUser)) :
    ((securityMatch routes default path method).auth_required = false → decoratorRoles = [] →
      decoratorDept = false → decoratorSens = false →
      enforceSecurity routes default perms path method decoratorRoles decoratorDept decoratorSens
        userIdOpt db = .noAuth)
    ∧ (∀ rs, enforceSecurity routes default perms path method decoratorRoles decoratorDept
        decoratorSens userIdOpt db = .forbidden rs →
        ∀ x, x ∈ rs ↔ (x ∈ (securityMatch routes default path method).required_roles ∨
          x ∈ decoratorRoles))
    ∧ (∀ ctx, enforceSecurity routes default perms path method decoratorRoles decoratorDept
        decoratorSens userIdOpt db = .allowed ctx →
        ctx.filter_by_department =
          ((securityMatch routes default path method).filter_by_department || decoratorDept)
        ∧ ctx.require_sensitive_permission =
          ((securityMatch routes default path method).require_sensitive_permission || decoratorSens))
    ∧ (∀ uid user, userIdOpt = some uid → db.lookup uid = some user →
        ((securityMatch routes default path method).auth_required || !decoratorRoles.isEmpty ||
          decoratorDept || decoratorSens) = true →
        (securityMatch routes default path method).required_roles ++ decoratorRoles ≠ [] →
        ((∃ x ∈ user.roles,
            x ∈ (securityMatch routes default path method).required_roles ++ decoratorRoles) →
          ∃ ctx, enforceSecurity routes default perms path method decoratorRoles decoratorDept
            decoratorSens userIdOpt db = .allowed ctx)
        ∧ ((∀ x ∈ user.roles,
            x ∉ (securityMatch routes default path method).required_roles ++ decoratorRoles) →
          enforceSecurity routes default perms path method decoratorRoles decoratorDept
            decoratorSens userIdOpt db = .forbidden
              ((securityMatch routes default path method).required_roles ++ decoratorRoles))) := by
  refine ⟨?_, ?_, ?_, ?_⟩
  · intro hauth hroles hdept hsens
    unfold enforceSecurity
    simp [hauth, hroles, hdept, hsens]
  · intro rs h x
    unfold enforceSecurity at h
    by_cases hreq : (!((securityMatch routes default path method).auth_required ||
        !decoratorRoles.isEmpty || decoratorDept || decoratorSens)) = true
    · rw [if_pos hreq] at h
      exact absurd h (by simp)
    · rw [if_neg hreq] at h
      cases huid : userIdOpt with
      | none => simp [huid] at h
      | some uid =>
        simp only [huid] at h
        cases hdb : db.lookup uid with
        | none => simp [hdb] at h
        | some user =>
          simp only [hdb] at h
          by_cases hgate : (!((securityMatch routes default path method).required_roles ++
              decoratorRoles).isEmpty &&
              !user.roles.any (fun r =>
                ((securityMatch routes default path method).required_roles ++
                  decoratorRoles).contains r)) = true
          · rw [if_pos hgate] at h
            obtain rfl : (securityMatch routes default path method).required_roles ++
                decoratorRoles = rs := by
              injection h
            simp [List.mem_append]
          · rw [if_neg hgate] at h
            exact absurd h (by simp)
  · intro ctx h
    unfold enforceSecurity at h
    by_cases hreq : (!((securityMatch routes default path method).auth_required ||
        !decoratorRoles.isEmpty || decoratorDept || decoratorSens)) = true
    · rw [if_pos hreq] at h
      exact absurd h (by simp)
    · rw [if_neg hreq] at h
      cases huid : userIdOpt with
      | none => simp [huid] at h
      | some uid =>
        simp only [huid] at h
        cases hdb : db.lookup uid with
        | none => simp [hdb] at h
        | some user =>
          simp only [hdb] at h
          by_cases hgate : (!((securityMatch routes default path method).required_roles ++
              decoratorRoles).isEmpty &&
              !user.roles.any (fun r =>
                ((securityMatch routes default path method).required_roles ++
                  decoratorRoles).contains r)) = true
          · rw [if_pos hgate] at h
            exact absurd h (by simp)
          · rw [if_neg hgate] at h
            obtain rfl : _ = ctx := by injection h
            exact ⟨rfl, rfl⟩
  · intro uid user huid hdb hauth hnonempty
    have hreq : (!((securityMatch routes default path method).auth_required ||
        !decoratorRoles.isEmpty || decoratorDept || decoratorSens)) = false := by
      simp [hauth]
    have hne : ((securityMatch routes default path method).required_roles ++
        decoratorRoles).isEmpty = false := by
      simpa [List.isEmpty_iff] using hnonempty
    constructor
    · intro ⟨x, hxu, hxm⟩
      have hany : user.roles.any (fun r =>
          ((securityMatch routes default path method).required_roles ++
            decoratorRoles).contains r) = true := by
        rw [List.any_eq_true]
        exact ⟨x, hxu, by simpa using hxm⟩
      refine ⟨{ user_id := user.id, department_id := user.department_id, roles := user.roles
                permissions := derivePermissions perms user.roles
                filter_by_department :=
                  (securityMatch routes default path method).filter_by_department || decoratorDept
                require_sensitive_permission :=
                  (securityMatch routes default path method).require_sensitive_permission ||
                    decoratorSens
                can_view_cross_department :=
                  (derivePermissions perms user.roles).contains "view_cross_department"
                can_view_sensitive_data :=
                  (derivePermissions perms user.roles).contains "view_sensitive_data" }, ?_⟩
      unfold enforceSecurity
      rw [if_neg (by simp [hreq])]
      simp only [huid, hdb]
      rw [if_neg (by rw [hany]; simp)]
    · intro hnone
      have hany : user.roles.any (fun r =>
          ((securityMatch routes default path method).required_roles ++
            decoratorRoles).contains r) = false := by
        cases hb : user.roles.any (fun r =>
            ((securityMatch routes default path method).required_roles ++
              decoratorRoles).contains r) with
        | false => rfl
        | true =>
          obtain ⟨x, hxu, hxm⟩ := List.any_eq_true.mp hb
          exact absurd (show x ∈ (securityMatch routes default path method).required_roles ++
            decoratorRoles by simpa using hxm) (hnone x hxu)
      unfold enforceSecurity
      rw [if_neg (by simp [hreq])]
      simp only [huid, hdb]
      rw [if_pos (by rw [hne, hany]; simp)]

def c8Routes : List RouteRule :=
  [{ path := "/admin/users", methods := ["GET"], auth_required := some true
     required_roles := ["Admin"], filter_by_department := none
     require_sensitive_permission := none }]

def c8Default : DefaultRule :=
  { auth_required := true, required_roles := [], filter_by_department := false
    require_sensitive_permission := false }

theorem enforce_security_spec_witness :
    ∃ ctx, enforceSecurity c8Routes c8Default [] "/admin/users" "GET" [] false false
      (some 1) [(1, ⟨1, 2, ["Admin"]⟩)] = SecOutcome.allowed ctx :=
  ((enforce_security_spec c8Routes c8Default [] "/admin/users" "GET" [] false false
      (some 1) [(1, ⟨1, 2, ["Admin"]⟩)]).2.2.2 1 ⟨1, 2, ["Admin"]⟩ rfl (by decide)
      (by decide) (by decide)).1 ⟨"Admin", by decide, by decide⟩

/-! ## RBAC config loading (rbac_engine.load_rbac_config)

The YAML document (after `yaml.safe_load`) is embedded as `YVal`; the
loader below transcribes the validation and parsing of
`load_rbac_config`, including the aggregation of `public:`-flagged
permissions' rules into the public rule set. -/

inductive YVal
  | str (s : String)
  | int (n : Int)
  | bool (b : Bool)
  | list (items : List YVal)
  | map (entries : List (String × YVal))
  | null

def YVal.truthy : YVal → Bool
  | .str s => !(s == "")
  | .int n => !(n == 0)
  | .bool b => b
  | .list items => !items.isEmpty
  | .map entries => !entries.isEmpty
  | .null => false

/-- Python `str()`; the renderings of lists and mappings (a Python
`repr`) are not exercised by any claim and are abbreviated. -/
def YVal.toStr : YVal → String
  | .str s => s
  | .int n => toString n
  | .bool true => "True"
  | .bool false => "False"
  | .null => "None"
  | .list _ => "[list]"
  | .map _ => "[map]"

/-- `dict.get` (a YAML `null` value behaves like a missing key, as
Python's `None`). -/
def yGet (entries : List (String × YVal)) (key : String) : Option YVal :=
  match entries.lookup key with
  | some YVal.null => none
  | v => v

/-- `value or default` on an optional lookup. -/
def orElseY (v : Option YVal) (d : YVal) : YVal :=
  match v with
  | some x => if x.truthy then x else d
  | none => d

/-- Python `str.strip()` (whitespace at both ends). -/
def stripStr (s : String) : String :=
  String.mk (((s.data.dropWhile Char.isWhitespace).reverse.dropWhile Char.isWhitespace).reverse)

/-- One entry of a permission's `rules:` list: a mapping with a
non-empty `path` and a non-empty `methods` list; `m.upper()` on a
non-string method raises. -/
def parseRuleEntry (rule : YVal) : Except String RbacRule :=
  match rule with
  | .map entries =>
    let path_template := stripStr (match yGet entries "path" with | some v => v.toStr | none => "")
    let methods_raw := orElseY (yGet entries "methods") (.list [])
    if path_template == "" then .error "rules requires non-empty path"
    else
      match methods_raw with
      | .list ms =>
        if ms.isEmpty then .error "must have methods list"
        else
          match ms.mapM (fun m => match m with
            | YVal.str s => Except.ok s
            | _ => Except.error "AttributeError: upper") with
          | .error e => .error e
          | .ok names => .ok { path_template := path_template, methods := names.map upperStr }
      | _ => .error "must have methods list"
  | _ => .error "rules entries must be mappings"

def parsePermission (perm_name : String) (perm_val : YVal) : Except String PermissionDef :=
  match perm_val with
  | .map entries =>
    let public_flag :=
      match yGet entries "public" with
      | some v => v.truthy
      | none => false
    let rules_raw := orElseY (yGet entries "rules") (.list [])
    match rules_raw with
    | .list rs =>
      match rs.mapM parseRuleEntry with
      | .error e => .error e
      | .ok rules => .ok { name := perm_name, rules := rules, public := public_flag }
    | _ => .error "rules must be a list"
  | _ => .error "permission must be a mapping"

def parseRole (role_name : String) (role_val : YVal) : Except String RoleDef :=
  match role_val with
  | .map entries =>
    let extends0 : Option String :=
      match yGet entries "extends" with
      | none => none
      | some v =>
        let t := stripStr v.toStr
        if t == "" then none else some t
    let perms_list := orElseY (yGet entries "permissions") (.list [])
    match perms_list with
    | .list ps =>
      let display_name : Option String :=
        match yGet entries "display_name" with
        | none => none
        | some v => some v.toStr
      let descr0 : Option YVal :=
        match yGet entries "description" with
        | some v => if v.truthy then some v else yGet entries "Description"
        | none => yGet entries "Description"
      let description : Option String :=
        match descr0 with
        | none => none
        | some v => some v.toStr
      .ok { name := role_name, permissions := ps.map YVal.toStr, extendsRole := extends0
            display_name := display_name, description := description }
    | _ => .error "role permissions must be a list when present"
  | _ => .error "role must be a mapping"

def parsePublicEntry (entry : YVal) : Except String RbacRule :=
  match entry with
  | .map entries =>
    let path_template := stripStr (match yGet entries "path" with | some v => v.toStr | none => "")
    let methods_raw := orElseY (yGet entries "methods") (.list [])
    if path_template == "" then .error "public rule requires non-empty path"
    else
      match methods_raw with
      | .list ms =>
        if ms.isEmpty then .error "public rule must have methods list"
        else
          match ms.mapM (fun m => match m with
            | YVal.str s => Except.ok s
            | _ => Except.error "AttributeError: upper") with
          | .error e => .error e
          | .ok names => .ok { path_template := path_template, methods := names.map upperStr }
      | _ => .error "public rule must have methods list"
  | _ => .error "public entries must be mappings"

/-- `load_rbac_config` applied to the parsed YAML document
(`yaml.safe_load(...) or \x7b\x7d`): shape checks, permission and role
parsing, `extends`-target and permission-reference validation, the
top-level `public:` rules, and finally the rules of every
`public: true` permission appended to the public rule set. -/
def loadRbacConfig (raw0 : YVal) : Except String RbacConfig :=
  match (if raw0.truthy then raw0 else YVal.map []) with
  | .map top =>
    match orElseY (yGet top "roles") (YVal.map []) with
    | .map roles_entries =>
      match orElseY (yGet top "permissions") (YVal.map []) with
      | .map perm_entries =>
        match orElseY (yGet top "public") (YVal.list []) with
        | .list public_entries =>
          match perm_entries.mapM (fun nv => (parsePermission nv.1 nv.2).map (fun p => (nv.1, p))) with
          | .error e => .error e
          | .ok permissions =>
            match roles_entries.mapM (fun nv => (parseRole nv.1 nv.2).map (fun r => (nv.1, r))) with
            | .error e => .error e
            | .ok roles =>
              match roles.mapM (fun nr =>
                match nr.2.extendsRole with
                | some p =>
                  if (roles.lookup p).isSome then Except.ok ()
                  else Except.error "extends unknown role"
                | none => Except.ok ()) with
              | .error e => .error e
              | .ok _ =>
                match roles.mapM (fun nr =>
                  if nr.2.permissions.all (fun p => (permissions.lookup p).isSome) then Except.ok ()
                  else Except.error "references unknown permissions") with
                | .error e => .error e
                | .ok _ =>
                  match public_entries.mapM parsePublicEntry with
                  | .error e => .error e
                  | .ok topPublic =>
                    .ok { roles := roles, permissions := permissions
                          public_rules := topPublic ++
                            permissions.flatMap (fun np => if np.2.public then np.2.rules else []) }
        | _ => .error "public must be a list when present"
      | _ => .error "permissions must be a mapping"
    | _ => .error "roles must be a mapping"
  | _ => .error "AttributeError: get on a non-mapping document"

/-- C10: in every successfully loaded configuration, each rule of every
`public: true` permission is part of the public rule set, so a request
matching such a rule is `is_public` and `is_allowed` for every role set,
including the empty one, bypassing the permission check. -/
theorem public_permission_rules_spec (raw : YVal) (cfg : RbacConfig)
    (hload : loadRbacConfig raw = .ok cfg) :
    ∀ name pd, (name, pd) ∈ cfg.permissions → pd.public = true →
      ∀ rule, rule ∈ pd.rules →
        rule ∈ cfg.public_rules ∧
        ∀ method path, rule.methods.contains (upperStr method) = true →
          templateMatches rule.path_template path = true →
          isPublic cfg method path = true ∧
          ∀ (eff : EffMap) (userRoles : List String),
            isAllowed cfg eff userRoles method path = true := by
  have hpub : ∀ name pd, (name, pd) ∈ cfg.permissions → pd.public = true →
      ∀ rule, rule ∈ pd.rules → rule ∈ cfg.public_rules := by
    unfold loadRbacConfig at hload
    repeat' split at hload
    all_goals try exact Except.noConfusion hload
    injection hload with hcfg
    subst hcfg
    intro name pd hmem hpubflag rule hrule
    rw [List.mem_append, List.mem_flatMap]
    exact Or.inr ⟨(name, pd), hmem, by simp [hpubflag, hrule]⟩
  intro name pd hmem hpubflag rule hrule
  have hrulepub : rule ∈ cfg.public_rules := hpub name pd hmem hpubflag rule hrule
  refine ⟨hrulepub, ?_⟩
  intro method path hm hmatch
  have hispub : isPublic cfg method path = true := by
    unfold isPublic matchesAny
    rw [List.any_eq_true]
    exact ⟨rule, hrulepub, by rw [hm, hmatch]; rfl⟩
  refine ⟨hispub, ?_⟩
  intro eff userRoles
  unfold isAllowed
  rw [hispub]
  rfl

def c10Raw : YVal :=
  YVal.map
    [("roles", YVal.map [("reader", YVal.map
        [("extends", YVal.null), ("permissions", YVal.list [YVal.str "status.read"])])]),
     ("permissions", YVal.map [("status.read", YVal.map
        [("public", YVal.bool true),
         ("rules", YVal.list [YVal.map
            [("path", YVal.str "/status"), ("methods", YVal.list [YVal.str "GET"])]])])]),
     ("public", YVal.list [])]

def c10Cfg : RbacConfig :=
  { roles := [("reader",
      { name := "reader", permissions := ["status.read"], extendsRole := none
        display_name := none, description := none })]
    permissions := [("status.read",
      { name := "status.read"
        rules := [{ path_template := "/status", methods := ["GET"] }]
        public := true })]
    public_rules := [{ path_template := "/status", methods := ["GET"] }] }

theorem public_permission_rules_spec_witness :
    isAllowed c10Cfg [] [] "GET" "/status" = true :=
  ((public_permission_rules_spec c10Raw c10Cfg rfl "status.read"
      { name := "status.read"
        rules := [{ path_template := "/status", methods := ["GET"] }]
        public := true }
      (by decide) rfl
      { path_template := "/status", methods := ["GET"] } (by decide)).2
    "GET" "/status" (by decide) (by decide)).2 [] []

end RoutesSec
